import Mathlib

/-!
Verification of the maybenot-defenses machine generators.

The repository contains four Rust binaries (`maybenot_front.rs`,
`pipelined_front.rs`, `maybenot_regulator.rs`, `maybenot_surakav.rs`) that
synthesize probabilistic state machines approximating traffic-analysis
defenses.  This file gives a shallow embedding of their data model and of
each generator, and settles the frozen claims against it.

Modelling conventions:
* Rust `f64` arithmetic inside the generators is modelled over `ℚ`
  (exact real arithmetic on the values the code manipulates); the two
  transcendental quantities that enter a machine build -- the Rayleigh
  quantile `rayleigh_max_t` and the constant `sqrt(pi)` -- together with
  the outputs of the floating-point interval searches
  (`calc_interval_width`) are passed to the builds as explicit oracle
  parameters, since they are irrational.  The searches themselves are
  modelled separately over `ℝ` (section "Real-valued numerics") and the
  claims about them are settled there.
* `f64::INFINITY`, which the code stores in some `Dist` parameters, is
  modelled as the top element of `WithTop ℚ`.
* Rust `HashMap` tables are modelled as association lists with
  insert-overwrite semantics; the generators only query tables by key
  and sum values per key, so iteration order is irrelevant.
-/

namespace Maybenot

/-- Events observable by a machine (from the external maybenot crate; the
generators treat this as an opaque key set). -/
inductive Event where
  | NonPaddingSent
  | NonPaddingRecv
  | PaddingSent
  | PaddingRecv
  | BlockingBegin
  | BlockingEnd
  | LimitReached
deriving DecidableEq, Repr

/-- Distribution kinds used by the generators. -/
inductive DistType where
  | Uniform
  | Normal
deriving DecidableEq, Repr

/-- Numeric field of a `Dist`: a finite rational or `f64::INFINITY`. -/
abbrev FVal : Type := WithTop ℚ

/-- The value `f64::INFINITY`. -/
def INFINITY : FVal := ⊤

/-- A sampling specification `{dist, param1, param2, start, max}`
(mirrors `maybenot::dist::Dist`). -/
structure Dist where
  dist : DistType
  param1 : FVal
  param2 : FVal
  start : FVal
  max : FVal
deriving DecidableEq, Repr

/-- Default all-zero distribution.  Modelled from the spec: the external
`State::new` hands back a state whose distributions are later filled in by
the builders; claims never inspect a distribution that a builder did not
set, so the default value is immaterial. -/
def defaultDist : Dist :=
  { dist := DistType.Uniform, param1 := (0 : ℚ), param2 := (0 : ℚ),
    start := (0 : ℚ), max := (0 : ℚ) }

/-- A transition table: for each event, a probability-weighted list of
target state indices (model of `HashMap<Event, HashMap<usize, f64>>`). -/
abbrev TransTable : Type := List (Event × List (ℕ × ℚ))

/-- One machine state (mirrors `maybenot::state::State`). -/
structure State where
  transitions : TransTable
  bypass : Bool
  replace : Bool
  action_is_block : Bool
  timeout : Dist
  action : Dist
  limit : Dist
deriving DecidableEq, Repr

/-- `State::new(transitions, num_states)`: a fresh state with the given
transition table, all flags false and default distributions.  The
`num_states` argument sizes the crate-internal transition matrix and does
not affect the fields the generators read back, so it is ignored here. -/
def State.new (t : TransTable) (num_states : ℕ) : State :=
  let _ := num_states
  { transitions := t, bypass := false, replace := false,
    action_is_block := false,
    timeout := defaultDist, action := defaultDist, limit := defaultDist }

/-- A machine: ordered state list plus enforcement budgets
(mirrors `maybenot::machine::Machine`). -/
structure Machine where
  allowed_padding_bytes : ℕ
  max_padding_frac : ℚ
  allowed_blocked_microsec : ℕ
  max_blocking_frac : ℚ
  states : List State
  include_small_packets : Bool
deriving DecidableEq, Repr

/-- `u64::MAX`. -/
def U64_MAX : ℕ := 2 ^ 64 - 1

/-- `TOR_CELL_SIZE` (identical constant in all four binaries). -/
def TOR_CELL_SIZE : ℚ := 512

/-- Look up the probability row of one event in a transition table. -/
def lookupEvent (s : State) (e : Event) : Option (List (ℕ × ℚ)) :=
  (s.transitions.find? (fun p => decide (p.1 = e))).map (·.2)

/-- Sum of the probabilities a state assigns to one event. -/
def eventProbSum (s : State) (e : Event) : ℚ :=
  (((lookupEvent s e).getD []).map (·.2)).sum

/-- All transition target indices stored in a state. -/
def stateTargets (s : State) : List ℕ :=
  s.transitions.flatMap (fun p => p.2.map (·.1))

/-- Every transition target index of every state of `m` is at most `n`. -/
def machineTargetsLe (m : Machine) (n : ℕ) : Prop :=
  ∀ s ∈ m.states, ∀ t ∈ stateTargets s, t ≤ n

instance (m : Machine) (n : ℕ) : Decidable (machineTargetsLe m n) := by
  unfold machineTargetsLe; infer_instance

/-- Every event row of every state of `m` has probabilities summing to at
most 1. -/
def machineProbSumsLe1 (m : Machine) : Prop :=
  ∀ s ∈ m.states, ∀ e : Event, eventProbSum s e ≤ 1

instance (m : Machine) : Decidable (machineProbSumsLe1 m) := by
  unfold machineProbSumsLe1
  have : ∀ s : State, Decidable (∀ e : Event, eventProbSum s e ≤ 1) := by
    intro s
    have h : (∀ e : Event, eventProbSum s e ≤ 1) ↔
        (eventProbSum s Event.NonPaddingSent ≤ 1 ∧
         eventProbSum s Event.NonPaddingRecv ≤ 1 ∧
         eventProbSum s Event.PaddingSent ≤ 1 ∧
         eventProbSum s Event.PaddingRecv ≤ 1 ∧
         eventProbSum s Event.BlockingBegin ≤ 1 ∧
         eventProbSum s Event.BlockingEnd ≤ 1 ∧
         eventProbSum s Event.LimitReached ≤ 1) := by
      constructor
      · intro h
        exact ⟨h _, h _, h _, h _, h _, h _, h _⟩
      · rintro ⟨h1, h2, h3, h4, h5, h6, h7⟩ e
        cases e <;> assumption
    exact decidable_of_iff _ h.symm
  exact List.decidableBAll _ _

/-- Insert-with-overwrite into an association list
(model of `HashMap::insert`). -/
def insertPair (m : List (ℕ × ℚ)) (k : ℕ) (v : ℚ) : List (ℕ × ℚ) :=
  if m.any (fun p => decide (p.1 = k)) then
    m.map (fun p => if p.1 = k then (k, v) else p)
  else m ++ [(k, v)]

namespace Front

/-- Oracle context for one invocation of `maybenot_front`.
`window` and `budget` and `num_states` are the CLI arguments
(`padding_window` already scaled by `1e6` as in `main`); `max_t` stands
for the irrational value `rayleigh_max_t(padding_window)` and `widthFn a`
for the value the floating-point search
`calc_interval_width(a, max_t, area, padding_window)` returns at cursor
`a`; `sqrt_pi` stands for `PI.sqrt()`.  Those three are transcendental
computations modelled over `ℝ` in the numerics section below and enter
the build only through their values. -/
structure Ctx where
  window : ℚ
  budget : ℕ
  num_states : ℕ
  max_t : ℚ
  widthFn : ℚ → ℚ
  sqrt_pi : ℚ

/-- `generate_padding_state` of `maybenot_front.rs`. -/
def generate_padding_state (curr_index next_index num_states : ℕ)
    (padding_count timeout stdev : ℚ) : State :=
  let padding_sent : List (ℕ × ℚ) := [(curr_index, 1)]
  let limit_reached : List (ℕ × ℚ) := [(next_index, 1)]
  let transitions : TransTable :=
    [(Event.PaddingSent, padding_sent), (Event.LimitReached, limit_reached)]
  { State.new transitions num_states with
    timeout := { dist := DistType.Normal, param1 := timeout, param2 := stdev,
                 start := (0 : ℚ), max := (timeout * 2 : ℚ) }
    action := { dist := DistType.Uniform, param1 := TOR_CELL_SIZE,
                param2 := TOR_CELL_SIZE, start := (0 : ℚ), max := (0 : ℚ) }
    limit := { dist := DistType.Uniform, param1 := (1 : ℚ),
               param2 := padding_count, start := (0 : ℚ), max := (0 : ℚ) } }

/-- `generate_start_state` of `maybenot_front.rs`. -/
def generate_start_state (num_states : ℕ) : State :=
  let nonpadding_sent : List (ℕ × ℚ) := [(1, 1)]
  let nonpadding_recv : List (ℕ × ℚ) := [(1, 1)]
  State.new
    [(Event.NonPaddingSent, nonpadding_sent),
     (Event.NonPaddingRecv, nonpadding_recv)] num_states

/-- The PADDING-state loop of `generate_machine` in `maybenot_front.rs`:
`rem` counts the remaining iterations of `for i in 1..num_states`
(initially `num_states - 1`); the base case emits the final state built
after the loop ("Last state, to max_t"). -/
def paddingStates (ctx : Ctx) : ℕ → ℕ → ℚ → ℚ → List State
  | 0, _i, t1, total_padding_frac =>
    let width := ctx.max_t - t1
    let middle := t1 + width / 2
    let padding_count := (1 - total_padding_frac) * (ctx.budget : ℚ)
    let timeout := width / padding_count
    let stdev := ctx.window ^ 2 / (padding_count * middle * ctx.sqrt_pi)
    [generate_padding_state ctx.num_states (ctx.num_states + 2)
      (ctx.num_states + 1) padding_count timeout stdev]
  | rem + 1, i, t1, total_padding_frac =>
    let area := 1 / (ctx.num_states : ℚ)
    let width := ctx.widthFn t1
    let middle := t1 + width / 2
    let t2 := t1 + width
    let padding_count := area * (ctx.budget : ℚ)
    let timeout := width / padding_count
    let stdev := ctx.window ^ 2 / (padding_count * middle * ctx.sqrt_pi)
    generate_padding_state i (i + 1) (ctx.num_states + 1)
        padding_count timeout stdev
      :: paddingStates ctx rem (i + 1) t2 (total_padding_frac + area)

/-- `generate_machine` of `maybenot_front.rs` (up to the external
serialization step: the constructed `Machine` value). -/
def generate_machine (ctx : Ctx) : Machine :=
  { allowed_padding_bytes := U64_MAX
    max_padding_frac := 0
    allowed_blocked_microsec := 0
    max_blocking_frac := 0
    states := generate_start_state (ctx.num_states + 1)
      :: paddingStates ctx (ctx.num_states - 1) 1 0 0
    include_small_packets := false }

end Front

namespace Pipelined

/-- Oracle context for one invocation of `pipelined_front` (see
`Front.Ctx` for the meaning of the oracle fields). -/
structure Ctx where
  window : ℚ
  budget : ℕ
  num_states : ℕ
  num_pipelines : ℕ
  max_t : ℚ
  widthFn : ℚ → ℚ
  sqrt_pi : ℚ

/-- `generate_padding_state` of `pipelined_front.rs`. -/
def generate_padding_state (curr_index next_index total_states : ℕ)
    (padding_count timeout stdev : ℚ) : State :=
  let padding_sent : List (ℕ × ℚ) := [(curr_index, 1)]
  let limit_reached : List (ℕ × ℚ) := [(next_index, 1)]
  let transitions : TransTable :=
    [(Event.PaddingSent, padding_sent), (Event.LimitReached, limit_reached)]
  { State.new transitions total_states with
    timeout := { dist := DistType.Normal, param1 := timeout, param2 := stdev,
                 start := (0 : ℚ), max := (timeout * 2 : ℚ) }
    action := { dist := DistType.Uniform, param1 := TOR_CELL_SIZE,
                param2 := TOR_CELL_SIZE, start := (0 : ℚ), max := (0 : ℚ) }
    limit := { dist := DistType.Uniform, param1 := (1 : ℚ),
               param2 := padding_count, start := (0 : ℚ), max := (0 : ℚ) } }

/-- The `while idx < total_states` insertion loop of
`generate_start_state` in `pipelined_front.rs`, with explicit fuel
(the loop advances `idx` by `num_states` each round; fuel
`total_states` is enough whenever `num_states >= 1`). -/
def startInsertLoop (num_states num_pipelines total_states : ℕ) :
    ℕ → ℕ → List (ℕ × ℚ) → List (ℕ × ℚ)
  | 0, _, acc => acc
  | fuel + 1, idx, acc =>
    if idx < total_states then
      startInsertLoop num_states num_pipelines total_states fuel
        (idx + num_states) (insertPair acc idx (1 / (num_pipelines : ℚ)))
    else acc

/-- `generate_start_state` of `pipelined_front.rs`. -/
def generate_start_state (num_states num_pipelines total_states : ℕ) :
    State :=
  let fanout := startInsertLoop num_states num_pipelines total_states
    total_states 1 []
  State.new
    [(Event.NonPaddingSent, fanout), (Event.NonPaddingRecv, fanout)]
    total_states

/-- The inner per-pipeline state loop of `generate_machine` in
`pipelined_front.rs`: `rem` counts the remaining iterations of
`for _ in 1..num_states` (initially `num_states - 1`); the base case
emits the pipeline's final state ("Last state, to max_t"). -/
def pipeStates (ctx : Ctx) (total_states : ℕ) (curr_count : ℚ) :
    ℕ → ℕ → ℚ → List State
  | 0, idx, t1 =>
    let width := ctx.max_t - t1
    let middle := t1 + width / 2
    let timeout := width / curr_count
    let stdev := ctx.window ^ 2 / (curr_count * middle * ctx.sqrt_pi)
    [generate_padding_state idx (total_states + 1) total_states
      curr_count timeout stdev]
  | rem + 1, idx, t1 =>
    let width := ctx.widthFn t1
    let middle := t1 + width / 2
    let t2 := t1 + width
    let timeout := width / curr_count
    let stdev := ctx.window ^ 2 / (curr_count * middle * ctx.sqrt_pi)
    generate_padding_state idx (idx + 1) total_states
        curr_count timeout stdev
      :: pipeStates ctx total_states curr_count rem (idx + 1) t2

/-- The outer pipeline loop of `generate_machine` in
`pipelined_front.rs`: one round per pipeline, carrying the running
state index `idx` and the per-pipeline budget `curr_count`, which grows
by `step` after each pipeline. -/
def pipelineLoop (ctx : Ctx) (total_states : ℕ) (step : ℚ) :
    ℕ → ℕ → ℚ → List State
  | 0, _, _ => []
  | pipes + 1, idx, curr_count =>
    pipeStates ctx total_states curr_count (ctx.num_states - 1) idx 0
      ++ pipelineLoop ctx total_states step pipes
        (idx + ctx.num_states) (curr_count + step)

/-- `generate_machine` of `pipelined_front.rs` (the constructed
`Machine` value). -/
def generate_machine (ctx : Ctx) : Machine :=
  let area := 1 / (ctx.num_states : ℚ)
  let total_states := ctx.num_pipelines * ctx.num_states + 1
  let step := area * (ctx.budget : ℚ) / (ctx.num_pipelines : ℚ)
  { allowed_padding_bytes := U64_MAX
    max_padding_frac := 0
    allowed_blocked_microsec := 0
    max_blocking_frac := 0
    states := generate_start_state ctx.num_states ctx.num_pipelines
        total_states
      :: pipelineLoop ctx total_states step ctx.num_pipelines 1 step
    include_small_packets := false }

end Pipelined

/-- Rust `f64 -> usize` cast: truncation toward zero, saturating at 0
for negative inputs (for every rational `q`, `(Int.floor q).toNat`
coincides with that: negative values saturate to 0 either way). -/
def f64AsUsize (q : ℚ) : ℕ := (⌊q⌋).toNat

/-- Rust `f64::fract`: `x - x.trunc()`, truncation toward zero. -/
def f64Fract (q : ℚ) : ℚ := q - (if 0 ≤ q then (⌊q⌋ : ℚ) else (⌈q⌉ : ℚ))

namespace Regulator

/-- `generate_client_send_state` of `maybenot_regulator.rs`. -/
def generate_client_send_state (num_states : ℕ) : State :=
  let padding_sent : List (ℕ × ℚ) := [(0, 1)]
  let transitions : TransTable := [(Event.PaddingSent, padding_sent)]
  { State.new transitions num_states with
    bypass := true
    replace := true
    timeout := { dist := DistType.Uniform, param1 := (0 : ℚ),
                 param2 := (0 : ℚ), start := (0 : ℚ), max := (0 : ℚ) }
    action := { dist := DistType.Uniform, param1 := TOR_CELL_SIZE,
                param2 := TOR_CELL_SIZE, start := (0 : ℚ), max := (0 : ℚ) } }

/-- `generate_client_count_state` of `maybenot_regulator.rs`.  The
`HashMap` rows are written out literally: the second insert (under
`prob_trans < 1.0`) uses key `curr_index`, distinct from `next_index`
at every call site. -/
def generate_client_count_state (curr_index next_index num_states : ℕ)
    (prob_trans : ℚ) : State :=
  let padding_recv : List (ℕ × ℚ) :=
    if prob_trans < 1 then
      [(next_index, prob_trans), (curr_index, 1 - prob_trans)]
    else [(next_index, prob_trans)]
  let nonpadding_recv : List (ℕ × ℚ) :=
    if prob_trans < 1 then
      [(next_index, prob_trans), (curr_index, 1 - prob_trans)]
    else [(next_index, prob_trans)]
  let limit_reached : List (ℕ × ℚ) := [(next_index, 1)]
  let transitions : TransTable :=
    [(Event.PaddingRecv, padding_recv),
     (Event.NonPaddingRecv, nonpadding_recv)] ++
    (if prob_trans < 1 then [(Event.LimitReached, limit_reached)] else [])
  { State.new transitions num_states with
    action_is_block := true
    bypass := true
    replace := true
    timeout := { dist := DistType.Uniform, param1 := (0 : ℚ),
                 param2 := (0 : ℚ), start := (0 : ℚ), max := (0 : ℚ) }
    action := { dist := DistType.Uniform, param1 := INFINITY,
                param2 := INFINITY, start := (0 : ℚ), max := (0 : ℚ) }
    limit := { dist := DistType.Uniform, param1 := (2 : ℚ),
               param2 := (2 : ℚ), start := (0 : ℚ), max := (0 : ℚ) } }

/-- The COUNTER-state loop of `generate_client_machine`
(`for i in 1..num_states`). -/
def clientCountStates (num_states : ℕ) (prob_last_trans : ℚ) :
    List State :=
  (List.range (num_states - 1)).map (fun j =>
    let i := j + 1
    let prob_trans := if i = num_states - 1 then prob_last_trans else 1
    generate_client_count_state (i - 1) i num_states prob_trans)

/-- `generate_client_machine` of `maybenot_regulator.rs`
(the constructed `Machine` value). -/
def generate_client_machine (upload_ratio : ℚ) : Machine :=
  let num_states := f64AsUsize upload_ratio + 1
  let prob_last_trans := 1 - f64Fract upload_ratio
  { allowed_padding_bytes := U64_MAX
    max_padding_frac := 0
    allowed_blocked_microsec := U64_MAX
    max_blocking_frac := 0
    states := clientCountStates num_states prob_last_trans
      ++ [generate_client_send_state num_states]
    include_small_packets := false }

/-- `generate_relay_send_state` of `maybenot_regulator.rs`. -/
def generate_relay_send_state (curr_index next_index num_states : ℕ)
    (padding_count timeout threshold rate : ℚ) : State :=
  let padding_sent : List (ℕ × ℚ) := [(curr_index, 1)]
  let limit_reached : List (ℕ × ℚ) := [(next_index, 1)]
  let nonpadding_sent : List (ℕ × ℚ) := [(11, 2 / (threshold * rate))]
  let transitions : TransTable :=
    [(Event.PaddingSent, padding_sent),
     (Event.LimitReached, limit_reached)] ++
    (if 11 < curr_index then [(Event.NonPaddingSent, nonpadding_sent)]
     else [])
  { State.new transitions num_states with
    bypass := true
    replace := true
    timeout := { dist := DistType.Uniform, param1 := timeout,
                 param2 := timeout, start := (0 : ℚ), max := (0 : ℚ) }
    action := { dist := DistType.Uniform, param1 := TOR_CELL_SIZE,
                param2 := TOR_CELL_SIZE, start := (0 : ℚ), max := (0 : ℚ) }
    limit := { dist := DistType.Uniform, param1 := padding_count,
               param2 := padding_count, start := (0 : ℚ), max := (0 : ℚ) } }

/-- `generate_relay_boot_state` of `maybenot_regulator.rs`. -/
def generate_relay_boot_state (curr_index next_index num_states : ℕ)
    (timeout : ℚ) : State :=
  let padding_sent : List (ℕ × ℚ) := [(curr_index, 1)]
  let nonpadding_sent : List (ℕ × ℚ) := [(next_index, 1)]
  let transitions : TransTable :=
    [(Event.PaddingSent, padding_sent),
     (Event.NonPaddingSent, nonpadding_sent)]
  { State.new transitions num_states with
    bypass := true
    replace := true
    timeout := { dist := DistType.Uniform, param1 := timeout,
                 param2 := timeout, start := (0 : ℚ), max := (0 : ℚ) }
    action := { dist := DistType.Uniform, param1 := TOR_CELL_SIZE,
                param2 := TOR_CELL_SIZE, start := (0 : ℚ), max := (0 : ℚ) } }

/-- `generate_relay_block_state` of `maybenot_regulator.rs`. -/
def generate_relay_block_state (num_states : ℕ) : State :=
  let blocking_begin : List (ℕ × ℚ) := [(2, 1)]
  let transitions : TransTable := [(Event.BlockingBegin, blocking_begin)]
  { State.new transitions num_states with
    action_is_block := true
    bypass := true
    replace := true
    timeout := { dist := DistType.Uniform, param1 := (0 : ℚ),
                 param2 := (0 : ℚ), start := (0 : ℚ), max := (0 : ℚ) }
    action := { dist := DistType.Uniform, param1 := INFINITY,
                param2 := INFINITY, start := (0 : ℚ), max := (0 : ℚ) } }

/-- `generate_relay_start_state` of `maybenot_regulator.rs`. -/
def generate_relay_start_state (num_states : ℕ) : State :=
  let nonpadding_sent : List (ℕ × ℚ) := [(1, 1)]
  State.new [(Event.NonPaddingSent, nonpadding_sent)] num_states

/-- Oracle context for one relay-machine invocation.
`widthFn a` stands for the value the floating-point search
`calc_interval_width(a, packets_per_state, initial_rate, decay)` returns
at cursor `a` (`none` models an `f64::INFINITY` result), and `rateAt t`
stands for `calculate_rate(t, initial_rate, decay) = R * D^t`; both are
transcendental computations modelled over `ℝ` in the numerics section
below and enter the build only through their values. -/
structure RelayCtx where
  packets_per_state : ℚ
  threshold : ℚ
  widthFn : ℚ → Option ℚ
  rateAt : ℚ → ℚ

/-- The "Calculate number of send states" `while keep_going` loop of
`generate_relay_machine`, with explicit fuel (`none` = fuel exhausted;
the source loop terminates by the decay of the rate curve, settled over
`ℝ` in the numerics section).  When the width is `f64::INFINITY` the
source's cursor becomes infinite; this is always the final iteration,
so the cursor junk value `t1 + 0` is never consumed. -/
def countSendLoop (ctx : RelayCtx) : ℕ → ℚ → ℕ → Option ℕ
  | 0, _, _ => none
  | fuel + 1, t1, num_send_states =>
    let w := ctx.widthFn t1
    let width := w.getD 0
    let middle := t1 + width / 2
    let t2 := t1 + width
    let rate := ctx.rateAt middle
    if w = none ∨ rate < 1 then some (num_send_states + 1)
    else countSendLoop ctx fuel t2 (num_send_states + 1)

/-- The `SEND_i` build loop of `generate_relay_machine`
(`for i in 0..num_send_states`), carrying the time cursor `t1`. -/
def sendStatesLoop (ctx : RelayCtx) (num_states : ℕ) :
    ℕ → ℕ → ℚ → List State
  | 0, _, _ => []
  | rem + 1, i, t1 =>
    let w := ctx.widthFn t1
    let width := w.getD 0
    let middle := t1 + width / 2
    let t2 := t1 + width
    let rate0 := ctx.rateAt middle
    let rate := if w = none ∨ rate0 < 1 then 1 else rate0
    let next_idx := if w = none ∨ rate0 < 1 then num_states + 1 else i + 12
    generate_relay_send_state (i + 11) next_idx num_states
        ctx.packets_per_state (1000000 / rate) ctx.threshold rate
      :: sendStatesLoop ctx num_states rem (i + 1) t2

/-- The state list of the relay machine, given the send-state count the
counting pass discovered. -/
def relayStates (ctx : RelayCtx) (num_send_states : ℕ) : List State :=
  let num_states := num_send_states + 11
  [generate_relay_start_state num_states,
   generate_relay_block_state num_states,
   generate_relay_boot_state 2 3 num_states 100000,
   generate_relay_boot_state 3 4 num_states 100000,
   generate_relay_boot_state 4 5 num_states 100000,
   generate_relay_boot_state 5 6 num_states 100000,
   generate_relay_boot_state 6 7 num_states 100000,
   generate_relay_boot_state 7 8 num_states 100000,
   generate_relay_boot_state 8 9 num_states 100000,
   generate_relay_boot_state 9 10 num_states 100000,
   generate_relay_boot_state 10 11 num_states 100000]
  ++ sendStatesLoop ctx num_states num_send_states 0 0

/-- The relay machine built from a known send-state count. -/
def relayMachineWith (ctx : RelayCtx) (num_send_states : ℕ) : Machine :=
  { allowed_padding_bytes := U64_MAX
    max_padding_frac := 0
    allowed_blocked_microsec := U64_MAX
    max_blocking_frac := 0
    states := relayStates ctx num_send_states
    include_small_packets := false }

/-- `generate_relay_machine` of `maybenot_regulator.rs`: the counting
pass followed by the build pass (`none` = counting fuel exhausted). -/
def generate_relay_machine (ctx : RelayCtx) (fuel : ℕ) : Option Machine :=
  (countSendLoop ctx fuel 0 0).map (relayMachineWith ctx)

end Regulator

namespace Surakav

/-- `CUTOFF_LENGTH` of `maybenot_surakav.rs` (non-zero bursts). -/
def CUTOFF_LENGTH : ℕ := 8000

/-- `generate_start_state` of `maybenot_surakav.rs`. -/
def generate_start_state (next_index num_states : ℕ) : State :=
  let nonpadding_sent : List (ℕ × ℚ) := [(next_index, 1)]
  let nonpadding_recv : List (ℕ × ℚ) := [(next_index, 1)]
  State.new
    [(Event.NonPaddingSent, nonpadding_sent),
     (Event.NonPaddingRecv, nonpadding_recv)] num_states

/-- `generate_block_state` of `maybenot_surakav.rs`. -/
def generate_block_state (next_index num_states : ℕ) : State :=
  let blocking_begin : List (ℕ × ℚ) := [(next_index, 1)]
  let transitions : TransTable := [(Event.BlockingBegin, blocking_begin)]
  { State.new transitions num_states with
    action_is_block := true
    bypass := true
    replace := true
    timeout := { dist := DistType.Uniform, param1 := (0 : ℚ),
                 param2 := (0 : ℚ), start := (0 : ℚ), max := (0 : ℚ) }
    action := { dist := DistType.Uniform, param1 := INFINITY,
                param2 := INFINITY, start := (0 : ℚ), max := (0 : ℚ) } }

/-- `generate_burst_states` of `maybenot_surakav.rs`: the (send, recv)
pair for one observed burst of `num_cells` cells. -/
def generate_burst_states (num_cells : ℚ) (curr_index next_index
    num_states : ℕ) : State × State :=
  let limit_reached_send : List (ℕ × ℚ) := [(next_index, 1)]
  let limit_reached_recv : List (ℕ × ℚ) := [(next_index, 1)]
  let padding_sent : List (ℕ × ℚ) := [(curr_index, 1)]
  let nonpadding_recv : List (ℕ × ℚ) := [(curr_index, 1)]
  let padding_recv : List (ℕ × ℚ) := [(curr_index, 1)]
  let transitions_send : TransTable :=
    [(Event.LimitReached, limit_reached_send),
     (Event.PaddingSent, padding_sent)]
  let transitions_recv : TransTable :=
    [(Event.LimitReached, limit_reached_recv),
     (Event.NonPaddingRecv, nonpadding_recv),
     (Event.PaddingRecv, padding_recv)]
  let send_state :=
    { State.new transitions_send num_states with
      bypass := true
      replace := true
      timeout := { dist := DistType.Uniform, param1 := (5 : ℚ),
                   param2 := (5 : ℚ), start := (0 : ℚ), max := (0 : ℚ) }
      action := { dist := DistType.Uniform, param1 := TOR_CELL_SIZE,
                  param2 := TOR_CELL_SIZE, start := (0 : ℚ),
                  max := (0 : ℚ) }
      limit := { dist := DistType.Uniform, param1 := num_cells,
                 param2 := num_cells, start := (0 : ℚ), max := (0 : ℚ) } }
  let recv_state :=
    { State.new transitions_recv num_states with
      action_is_block := true
      bypass := true
      replace := true
      timeout := { dist := DistType.Uniform, param1 := (0 : ℚ),
                   param2 := (0 : ℚ), start := (0 : ℚ), max := (0 : ℚ) }
      action := { dist := DistType.Uniform, param1 := INFINITY,
                  param2 := INFINITY, start := (0 : ℚ), max := (0 : ℚ) }
      limit := { dist := DistType.Uniform, param1 := num_cells,
                 param2 := num_cells, start := (0 : ℚ), max := (0 : ℚ) } }
  (send_state, recv_state)

/-- `read_lines` of `maybenot_surakav.rs`, on the parsed line values of
the trace file: stops once `CUTOFF_LENGTH` non-zero bursts have been
accepted, returns the kept lines and the non-zero count. -/
def read_lines : List ℕ → ℕ → List ℕ × ℕ
  | [], count => ([], count)
  | v :: rest, count =>
    if CUTOFF_LENGTH ≤ count then ([], count)
    else
      let r := read_lines rest (count + if v ≠ 0 then 1 else 0)
      (v :: r.1, r.2)

/-- The burst loop of `parse_file`: walks the kept lines carrying
`(curr_idx, next_idx, relay_sending)` and builds the relay and client
state lists (in that order). -/
def burstLoop (num_states : ℕ) : List ℕ → ℕ → ℕ → Bool →
    List State × List State
  | [], _, _, _ => ([], [])
  | v :: rest, curr_idx, next_idx, relay_sending =>
    if v = 0 then burstLoop num_states rest curr_idx next_idx (!relay_sending)
    else
      let p := generate_burst_states (v : ℚ) curr_idx next_idx num_states
      let next' := if next_idx + 1 = num_states then num_states + 1
        else next_idx + 1
      let r := burstLoop num_states rest (curr_idx + 1) next' (!relay_sending)
      if relay_sending then (p.1 :: r.1, p.2 :: r.2)
      else (p.2 :: r.1, p.1 :: r.2)

/-- `parse_file` of `maybenot_surakav.rs` on the parsed line values of
the trace file, up to the external serialization step: returns the
(relay, client) pair of `Machine` values, in the order the source
serializes them. -/
def parse_file (raw : List ℕ) : Machine × Machine :=
  let lr := read_lines raw 0
  let lines := lr.1
  let num_bursts := lr.2
  let num_states := num_bursts + 2
  let bodies := burstLoop num_states lines 2 3 false
  let relay_states :=
    generate_start_state 1 num_states :: generate_block_state 2 num_states
      :: bodies.1
  let client_states :=
    generate_start_state 1 num_states :: generate_block_state 2 num_states
      :: bodies.2
  ({ allowed_padding_bytes := U64_MAX
     max_padding_frac := 0
     allowed_blocked_microsec := U64_MAX
     max_blocking_frac := 0
     states := relay_states
     include_small_packets := false },
   { allowed_padding_bytes := U64_MAX
     max_padding_frac := 0
     allowed_blocked_microsec := U64_MAX
     max_blocking_frac := 0
     states := client_states
     include_small_packets := false })

/-- Number of burst-state pairs a line list produces: one per non-zero
line (`burstLoop` emits one relay state and one client state for each). -/
def numBurstPairs (lines : List ℕ) : ℕ := lines.countP (fun v => v ≠ 0)

/-- A toggle of `relay_sending` influences the generated machines
exactly when some later line is a non-zero burst (the flag is only read
when a burst-state pair is emitted).  `effectiveZeroSwitches` counts the
direction switches (toggles at `0` lines) that influence the output. -/
def effectiveZeroSwitches : List ℕ → ℕ
  | [] => 0
  | v :: rest =>
    (if v = 0 ∧ rest.any (fun u => u ≠ 0) then 1 else 0)
      + effectiveZeroSwitches rest

/-- Count of the automatic role alternations (toggles after emitting a
burst pair) that influence the output: non-zero lines followed by a
later non-zero line. -/
def effectiveBurstAlternations : List ℕ → ℕ
  | [] => 0
  | v :: rest =>
    (if v ≠ 0 ∧ rest.any (fun u => u ≠ 0) then 1 else 0)
      + effectiveBurstAlternations rest

/-- The sender role per emitted burst pair (`true` = relay sends),
reading off the `relay_sending` flag at each non-zero line. -/
def senderSeq : List ℕ → Bool → List Bool
  | [], _ => []
  | v :: rest, relay_sending =>
    if v = 0 then senderSeq rest (!relay_sending)
    else relay_sending :: senderSeq rest (!relay_sending)

end Surakav

section Numerics

open scoped Classical

/-- `f64::EPSILON`, exactly `2^(-52)`. -/
noncomputable def EPSILON : ℝ := (2 : ℝ) ^ (-52 : ℤ)

namespace Front

/-- `rayleigh_cdf` of `maybenot_front.rs` / `pipelined_front.rs`, over
the reals: `1 - e^(-t^2 / (2 scale^2))`. -/
noncomputable def rayleigh_cdf (t scale : ℝ) : ℝ :=
  let exp_num := -(t ^ 2)
  let exp_div := 2 * scale ^ 2
  1 - Real.exp (exp_num / exp_div)

/-- `rayleigh_max_t` of `maybenot_front.rs` / `pipelined_front.rs`:
the point where the cumulative probability equals the empirical
constant `0.9996645373720975`. -/
noncomputable def rayleigh_max_t (scale : ℝ) : ℝ :=
  let a : ℝ := -2 * scale ^ 2
  let b : ℝ := 1 - 0.9996645373720975
  Real.sqrt (a * Real.log b)

/-- The bisection loop of `calc_interval_width` in `maybenot_front.rs` /
`pipelined_front.rs`, over the reals and with explicit fuel
(`none` = the loop has not terminated within `fuel` iterations). -/
noncomputable def cwLoop (a area scale : ℝ) : ℕ → ℝ → ℝ → Option ℝ
  | 0, _, _ => none
  | fuel + 1, b, increment =>
    let curr_area := rayleigh_cdf b scale - rayleigh_cdf a scale
    let curr_diff := area - curr_area
    if EPSILON < |curr_diff| then
      cwLoop a area scale fuel
        (if curr_diff < 0 then b - increment else b + increment)
        (increment / 2)
    else some (b - a)

/-- `calc_interval_width` of `maybenot_front.rs` / `pipelined_front.rs`
(bounded bisection over the Rayleigh CDF), with explicit fuel. -/
noncomputable def calc_interval_width (a max_t area scale : ℝ)
    (fuel : ℕ) : Option ℝ :=
  cwLoop a area scale fuel max_t ((max_t - a) / 2)

end Front

namespace Regulator

/-- `calculate_rate` of `maybenot_regulator.rs`: `R * D^t`. -/
noncomputable def calculate_rate (t initial_rate decay : ℝ) : ℝ :=
  initial_rate * decay ^ t

/-- Idealization of `calc_interval_width` in `maybenot_regulator.rs`
(the unbounded adaptive doubling/halving search): it returns a width `w`
with `rate(a + w/2) * w ~ count` (rectangular midpoint approximation,
tolerance `1e-5` idealized to an exact root); when no positive root
exists the floating-point loop runs the midpoint off to infinity and
returns the `f64::INFINITY` width that the callers test for, modelled
here as `none`. -/
noncomputable def calcIntervalWidthSol (count rate decay a : ℝ) :
    Option ℝ :=
  if h : ∃ w, 0 < w ∧ calculate_rate (a + w / 2) rate decay * w = count
  then some h.choose else none

/-- The time cursor of the "Calculate number of send states" loop in
`generate_relay_machine`: `t1 = 0` initially, advanced by each
interval's width (the junk value 0 after an infinite width is never
consumed, since an infinite width stops the loop). -/
noncomputable def sendCursor (count rate decay : ℝ) : ℕ → ℝ
  | 0 => 0
  | n + 1 => sendCursor count rate decay n +
      (calcIntervalWidthSol count rate decay
        (sendCursor count rate decay n)).getD 0

/-- The stopping condition of the counting loop at iteration `n`:
the interval search reported an unbounded width, or the rate at the
interval midpoint has decayed below 1. -/
def countStops (count rate decay : ℝ) (n : ℕ) : Prop :=
  calcIntervalWidthSol count rate decay (sendCursor count rate decay n)
      = none ∨
    calculate_rate (sendCursor count rate decay n +
      (calcIntervalWidthSol count rate decay
        (sendCursor count rate decay n)).getD 0 / 2) rate decay < 1

/-- The send-state count the counting loop discovers: the loop also
counts the iteration on which it decides to stop, so the count is one
more than the first stopping index (0 as a junk value if the loop never
stops). -/
noncomputable def num_send_states (count rate decay : ℝ) : ℕ :=
  if h : ∃ n, countStops count rate decay n then Nat.find h + 1 else 0

end Regulator

end Numerics

namespace Front

/-- The time cursor of the FRONT padding loop: `cursorF ctx m` is the
value of `t1` after `m` loop iterations (each advancing by the interval
width the search returned at the previous cursor). -/
def cursorF (ctx : Ctx) : ℕ → ℚ
  | 0 => 0
  | m + 1 => cursorF ctx m + ctx.widthFn (cursorF ctx m)

/-- Closed form of the state the FRONT loop body builds at iteration
`i = m + 1` (so after `m` completed iterations). -/
def loopState (ctx : Ctx) (m : ℕ) : State :=
  let area := 1 / (ctx.num_states : ℚ)
  let t1 := cursorF ctx m
  let width := ctx.widthFn t1
  let middle := t1 + width / 2
  let padding_count := area * (ctx.budget : ℚ)
  generate_padding_state (m + 1) (m + 2) (ctx.num_states + 1)
    padding_count (width / padding_count)
    (ctx.window ^ 2 / (padding_count * middle * ctx.sqrt_pi))

/-- Closed form of the final FRONT state ("Last state, to max_t") when
it is built after `m` loop iterations. -/
def lastState (ctx : Ctx) (m : ℕ) : State :=
  let area := 1 / (ctx.num_states : ℚ)
  let t1 := cursorF ctx m
  let width := ctx.max_t - t1
  let middle := t1 + width / 2
  let padding_count := (1 - (m : ℚ) * area) * (ctx.budget : ℚ)
  generate_padding_state ctx.num_states (ctx.num_states + 2)
    (ctx.num_states + 1) padding_count (width / padding_count)
    (ctx.window ^ 2 / (padding_count * middle * ctx.sqrt_pi))

end Front

namespace Pipelined

/-- The time cursor of one pipeline's padding loop (`t1` restarts at 0
for every pipeline, and every pipeline consults the search at the same
cursor sequence). -/
def cursorF (ctx : Ctx) : ℕ → ℚ
  | 0 => 0
  | m + 1 => cursorF ctx m + ctx.widthFn (cursorF ctx m)

/-- Closed form of the state the inner pipeline loop builds at state
index `idx`, after `j` completed iterations of that pipeline. -/
def loopState (ctx : Ctx) (total_states : ℕ) (curr_count : ℚ)
    (idx j : ℕ) : State :=
  let t1 := cursorF ctx j
  let width := ctx.widthFn t1
  let middle := t1 + width / 2
  generate_padding_state idx (idx + 1) total_states curr_count
    (width / curr_count)
    (ctx.window ^ 2 / (curr_count * middle * ctx.sqrt_pi))

/-- Closed form of a pipeline's final state ("Last state, to max_t"). -/
def lastState (ctx : Ctx) (total_states : ℕ) (curr_count : ℚ)
    (idx j : ℕ) : State :=
  let t1 := cursorF ctx j
  let width := ctx.max_t - t1
  let middle := t1 + width / 2
  generate_padding_state idx (total_states + 1) total_states curr_count
    (width / curr_count)
    (ctx.window ^ 2 / (curr_count * middle * ctx.sqrt_pi))

/-- The state block of pipeline `m` (0-based construction order): its
per-pipeline budget is `(m + 1) * step`. -/
def pipeBlock (ctx : Ctx) (total_states : ℕ) (step : ℚ) (m : ℕ) :
    List State :=
  pipeStates ctx total_states (((m : ℚ) + 1) * step)
    (ctx.num_states - 1) (1 + m * ctx.num_states) 0

/-- Pure list of the `(index, probability)` pairs the START-state
`while` loop inserts (the keys are fresh each round, so the
insert-with-overwrite reduces to appending; see
`startInsertLoop_eq_fanAux`). -/
def fanAux (num_states total_states : ℕ) (v : ℚ) : ℕ → ℕ → List (ℕ × ℚ)
  | 0, _ => []
  | fuel + 1, idx =>
    if idx < total_states then
      (idx, v) :: fanAux num_states total_states v fuel (idx + num_states)
    else []

end Pipelined

namespace Regulator

/-- Time cursor of both relay passes (`t1` after `i` completed
iterations; an `f64::INFINITY` width contributes the junk value 0, which
is only ever consumed past the terminal iteration). -/
def sendCursorQ (ctx : RelayCtx) : ℕ → ℚ
  | 0 => 0
  | i + 1 => sendCursorQ ctx i + (ctx.widthFn (sendCursorQ ctx i)).getD 0

/-- Midpoint of the `i`-th SEND interval. -/
def sendMid (ctx : RelayCtx) (i : ℕ) : ℚ :=
  sendCursorQ ctx i + (ctx.widthFn (sendCursorQ ctx i)).getD 0 / 2

/-- The terminal condition of iteration `i`:
`width == INFINITY || rate < 1.0`. -/
def sendEnds (ctx : RelayCtx) (i : ℕ) : Prop :=
  ctx.widthFn (sendCursorQ ctx i) = none ∨ ctx.rateAt (sendMid ctx i) < 1

instance (ctx : RelayCtx) (i : ℕ) : Decidable (sendEnds ctx i) := by
  unfold sendEnds
  infer_instance

/-- The rate parameter the `i`-th SEND state is built with: the
curve-fitted midpoint rate, clamped to `1.0` on the terminal
condition. -/
def sendRate (ctx : RelayCtx) (i : ℕ) : ℚ :=
  if sendEnds ctx i then 1 else ctx.rateAt (sendMid ctx i)

/-- The `LimitReached` target of the `i`-th SEND state: the next SEND
state, or `StateEnd` on the terminal condition. -/
def sendNext (ctx : RelayCtx) (num_states i : ℕ) : ℕ :=
  if sendEnds ctx i then num_states + 1 else i + 12

/-- Closed form of the `i`-th SEND state the build loop produces. -/
def mkSendState (ctx : RelayCtx) (num_states i : ℕ) : State :=
  let t1 := sendCursorQ ctx i
  let w := ctx.widthFn t1
  let width := w.getD 0
  let middle := t1 + width / 2
  let rate0 := ctx.rateAt middle
  let rate := if w = none ∨ rate0 < 1 then 1 else rate0
  let next_idx := if w = none ∨ rate0 < 1 then num_states + 1 else i + 12
  generate_relay_send_state (i + 11) next_idx num_states
    ctx.packets_per_state (1000000 / rate) ctx.threshold rate

end Regulator

namespace Front

theorem paddingStates_eq (ctx : Ctx) :
    ∀ (rem m : ℕ),
      paddingStates ctx rem (m + 1) (cursorF ctx m)
          ((m : ℚ) * (1 / (ctx.num_states : ℚ))) =
        (List.range rem).map (fun j => loopState ctx (m + j))
          ++ [lastState ctx (m + rem)] := by
  intro rem
  induction rem with
  | zero =>
    intro m
    simp [paddingStates, lastState]
  | succ rem ih =>
    intro m
    have hcast : (m : ℚ) * (1 / (ctx.num_states : ℚ)) +
        1 / (ctx.num_states : ℚ) =
        ((m + 1 : ℕ) : ℚ) * (1 / (ctx.num_states : ℚ)) := by
      push_cast
      ring
    have hstep : paddingStates ctx (rem + 1) (m + 1) (cursorF ctx m)
        ((m : ℚ) * (1 / (ctx.num_states : ℚ))) =
        loopState ctx m ::
          paddingStates ctx rem (m + 2) (cursorF ctx (m + 1))
            (((m + 1 : ℕ) : ℚ) * (1 / (ctx.num_states : ℚ))) := by
      simp only [paddingStates, loopState, cursorF, hcast]
    have hmap : (List.range (rem + 1)).map (fun j => loopState ctx (m + j)) =
        loopState ctx m ::
          (List.range rem).map (fun j => loopState ctx (m + 1 + j)) := by
      rw [List.range_succ_eq_map, List.map_cons, List.map_map]
      simp only [Nat.add_zero]
      congr 1
      apply List.map_congr_left
      intro a ha
      simp only [Function.comp_apply]
      congr 1
      omega
    have h1 : m + 1 + rem = m + (rem + 1) := by omega
    rw [hstep, ih (m + 1), h1, hmap, List.cons_append]

theorem paddingStates_length (ctx : Ctx) :
    ∀ (rem i : ℕ) (t1 tpf : ℚ),
      (paddingStates ctx rem i t1 tpf).length = rem + 1 := by
  intro rem
  induction rem with
  | zero => intro i t1 tpf; simp [paddingStates]
  | succ rem ih => intro i t1 tpf; simp [paddingStates, ih]

theorem generate_machine_states_eq (ctx : Ctx) :
    (generate_machine ctx).states =
      generate_start_state (ctx.num_states + 1)
        :: ((List.range (ctx.num_states - 1)).map (loopState ctx)
          ++ [lastState ctx (ctx.num_states - 1)]) := by
  have h := paddingStates_eq ctx (ctx.num_states - 1) 0
  simp only [Nat.cast_zero, zero_mul, Nat.zero_add, cursorF] at h
  simp only [generate_machine, h]

theorem generate_machine_length (ctx : Ctx) (hn : 1 ≤ ctx.num_states) :
    (generate_machine ctx).states.length = ctx.num_states + 1 := by
  simp only [generate_machine, List.length_cons,
    paddingStates_length ctx]
  omega

end Front

namespace Pipelined

theorem pipeStates_eq (ctx : Ctx) (total_states : ℕ) (curr_count : ℚ) :
    ∀ (rem idx j : ℕ),
      pipeStates ctx total_states curr_count rem idx (cursorF ctx j) =
        (List.range rem).map
            (fun a => loopState ctx total_states curr_count (idx + a) (j + a))
          ++ [lastState ctx total_states curr_count (idx + rem) (j + rem)] := by
  intro rem
  induction rem with
  | zero =>
    intro idx j
    simp [pipeStates, lastState]
  | succ rem ih =>
    intro idx j
    have hstep : pipeStates ctx total_states curr_count (rem + 1) idx
        (cursorF ctx j) =
        loopState ctx total_states curr_count idx j ::
          pipeStates ctx total_states curr_count rem (idx + 1)
            (cursorF ctx (j + 1)) := by
      simp only [pipeStates, loopState, cursorF]
    have hmap : (List.range (rem + 1)).map
        (fun a => loopState ctx total_states curr_count (idx + a) (j + a)) =
        loopState ctx total_states curr_count idx j ::
          (List.range rem).map
            (fun a => loopState ctx total_states curr_count (idx + 1 + a)
              (j + 1 + a)) := by
      rw [List.range_succ_eq_map, List.map_cons, List.map_map]
      simp only [Nat.add_zero]
      congr 1
      apply List.map_congr_left
      intro a ha
      simp only [Function.comp_apply]
      congr 1 <;> omega
    have h1 : idx + 1 + rem = idx + (rem + 1) := by omega
    have h2 : j + 1 + rem = j + (rem + 1) := by omega
    rw [hstep, ih (idx + 1) (j + 1), h1, h2, hmap, List.cons_append]

theorem pipeStates_length (ctx : Ctx) (total_states : ℕ)
    (curr_count : ℚ) :
    ∀ (rem idx : ℕ) (t1 : ℚ),
      (pipeStates ctx total_states curr_count rem idx t1).length =
        rem + 1 := by
  intro rem
  induction rem with
  | zero => intro idx t1; simp [pipeStates]
  | succ rem ih => intro idx t1; simp [pipeStates, ih]

/-- The state block of pipeline `m` (0-based construction order). -/

theorem pipelineLoop_eq (ctx : Ctx) (total_states : ℕ) (step : ℚ) :
    ∀ (pipes k : ℕ),
      pipelineLoop ctx total_states step pipes (1 + k * ctx.num_states)
          (((k : ℚ) + 1) * step) =
        ((List.range pipes).map
          (fun q => pipeBlock ctx total_states step (k + q))).flatten := by
  intro pipes
  induction pipes with
  | zero => intro k; simp [pipelineLoop]
  | succ pipes ih =>
    intro k
    have hidx : 1 + k * ctx.num_states + ctx.num_states =
        1 + (k + 1) * ctx.num_states := by ring
    have hcc : ((k : ℚ) + 1) * step + step =
        (((k + 1 : ℕ) : ℚ) + 1) * step := by
      push_cast
      ring
    have hstep : pipelineLoop ctx total_states step (pipes + 1)
        (1 + k * ctx.num_states) (((k : ℚ) + 1) * step) =
        pipeBlock ctx total_states step k
          ++ pipelineLoop ctx total_states step pipes
            (1 + (k + 1) * ctx.num_states)
            ((((k + 1 : ℕ) : ℚ) + 1) * step) := by
      simp only [pipelineLoop, pipeBlock, hidx, hcc]
    have hmap : (List.range (pipes + 1)).map
        (fun q => pipeBlock ctx total_states step (k + q)) =
        pipeBlock ctx total_states step k ::
          (List.range pipes).map
            (fun q => pipeBlock ctx total_states step (k + 1 + q)) := by
      rw [List.range_succ_eq_map, List.map_cons, List.map_map]
      simp only [Nat.add_zero]
      congr 1
      apply List.map_congr_left
      intro a ha
      simp only [Function.comp_apply]
      congr 1
      omega
    rw [hstep, ih (k + 1), hmap, List.flatten_cons]

theorem pipe_machine_states_eq (ctx : Ctx) :
    (generate_machine ctx).states =
      generate_start_state ctx.num_states ctx.num_pipelines
          (ctx.num_pipelines * ctx.num_states + 1)
        :: ((List.range ctx.num_pipelines).map
            (fun q => pipeBlock ctx (ctx.num_pipelines * ctx.num_states + 1)
              (1 / (ctx.num_states : ℚ) * (ctx.budget : ℚ) /
                (ctx.num_pipelines : ℚ)) q)).flatten := by
  have h := pipelineLoop_eq ctx (ctx.num_pipelines * ctx.num_states + 1)
    (1 / (ctx.num_states : ℚ) * (ctx.budget : ℚ) / (ctx.num_pipelines : ℚ))
    ctx.num_pipelines 0
  simp only [Nat.cast_zero, zero_add, zero_mul, Nat.zero_add, one_mul,
    add_zero] at h
  simp only [generate_machine, h]

end Pipelined

namespace Regulator

theorem mkSendState_eq (ctx : RelayCtx) (num_states i : ℕ) :
    mkSendState ctx num_states i =
      generate_relay_send_state (i + 11) (sendNext ctx num_states i)
        num_states ctx.packets_per_state (1000000 / sendRate ctx i)
        ctx.threshold (sendRate ctx i) := by
  simp only [mkSendState, sendNext, sendRate, sendEnds, sendMid]

theorem sendStatesLoop_eq (ctx : RelayCtx) (num_states : ℕ) :
    ∀ (rem i : ℕ),
      sendStatesLoop ctx num_states rem i (sendCursorQ ctx i) =
        (List.range rem).map (fun j => mkSendState ctx num_states (i + j)) := by
  intro rem
  induction rem with
  | zero => intro i; simp [sendStatesLoop]
  | succ rem ih =>
    intro i
    have hstep : sendStatesLoop ctx num_states (rem + 1) i
        (sendCursorQ ctx i) =
        mkSendState ctx num_states i ::
          sendStatesLoop ctx num_states rem (i + 1)
            (sendCursorQ ctx (i + 1)) := by
      simp only [sendStatesLoop, mkSendState, sendCursorQ]
    rw [hstep, ih (i + 1), List.range_succ_eq_map, List.map_cons,
      List.map_map]
    simp only [Nat.add_zero]
    congr 1
    apply List.map_congr_left
    intro a ha
    simp only [Function.comp_apply]
    congr 1
    omega

theorem sendStatesLoop_length (ctx : RelayCtx) (num_states : ℕ) :
    ∀ (rem i : ℕ) (t1 : ℚ),
      (sendStatesLoop ctx num_states rem i t1).length = rem := by
  intro rem
  induction rem with
  | zero => intro i t1; simp [sendStatesLoop]
  | succ rem ih => intro i t1; simp [sendStatesLoop, ih]

theorem relayStates_eq (ctx : RelayCtx) (num_send_states : ℕ) :
    relayStates ctx num_send_states =
      [generate_relay_start_state (num_send_states + 11),
       generate_relay_block_state (num_send_states + 11),
       generate_relay_boot_state 2 3 (num_send_states + 11) 100000,
       generate_relay_boot_state 3 4 (num_send_states + 11) 100000,
       generate_relay_boot_state 4 5 (num_send_states + 11) 100000,
       generate_relay_boot_state 5 6 (num_send_states + 11) 100000,
       generate_relay_boot_state 6 7 (num_send_states + 11) 100000,
       generate_relay_boot_state 7 8 (num_send_states + 11) 100000,
       generate_relay_boot_state 8 9 (num_send_states + 11) 100000,
       generate_relay_boot_state 9 10 (num_send_states + 11) 100000,
       generate_relay_boot_state 10 11 (num_send_states + 11) 100000]
      ++ (List.range num_send_states).map
        (fun j => mkSendState ctx (num_send_states + 11) j) := by
  have h := sendStatesLoop_eq ctx (num_send_states + 11) num_send_states 0
  simp only [sendCursorQ, Nat.zero_add] at h
  simp only [relayStates, h]

theorem relayStates_length (ctx : RelayCtx) (num_send_states : ℕ) :
    (relayStates ctx num_send_states).length = num_send_states + 11 := by
  simp [relayStates, sendStatesLoop_length]

end Regulator

namespace Pipelined

theorem startInsertLoop_eq_fanAux (num_states num_pipelines
    total_states : ℕ) (hn : 1 ≤ num_states) :
    ∀ (fuel idx : ℕ) (acc : List (ℕ × ℚ)),
      (∀ q ∈ acc, q.1 < idx) →
      startInsertLoop num_states num_pipelines total_states fuel idx acc =
        acc ++ fanAux num_states total_states
          (1 / (num_pipelines : ℚ)) fuel idx := by
  intro fuel
  induction fuel with
  | zero => intro idx acc hacc; simp [startInsertLoop, fanAux]
  | succ fuel ih =>
    intro idx acc hacc
    simp only [startInsertLoop, fanAux]
    by_cases h : idx < total_states
    · rw [if_pos h, if_pos h]
      have hnot : ¬(acc.any (fun p => decide (p.1 = idx)) = true) := by
        simp only [List.any_eq_true]
        rintro ⟨q, hq, hq2⟩
        have h1 := hacc q hq
        simp only [decide_eq_true_eq] at hq2
        omega
      have hins : insertPair acc idx (1 / (num_pipelines : ℚ)) =
          acc ++ [(idx, 1 / (num_pipelines : ℚ))] := by
        unfold insertPair
        rw [if_neg hnot]
      rw [hins, ih (idx + num_states)
        (acc ++ [(idx, 1 / (num_pipelines : ℚ))]) ?_]
      · simp
      · intro q hq
        rcases List.mem_append.mp hq with h1 | h2
        · have := hacc q h1
          omega
        · simp only [List.mem_singleton] at h2
          subst h2
          omega
    · rw [if_neg h, if_neg h]
      simp

theorem fanAux_keys_lt (num_states total_states : ℕ) (v : ℚ) :
    ∀ (fuel idx : ℕ), ∀ q ∈ fanAux num_states total_states v fuel idx,
      q.1 < total_states := by
  intro fuel
  induction fuel with
  | zero => intro idx q hq; simp [fanAux] at hq
  | succ fuel ih =>
    intro idx q hq
    simp only [fanAux] at hq
    by_cases h : idx < total_states
    · rw [if_pos h] at hq
      rcases List.mem_cons.mp hq with h1 | h2
      · subst h1; exact h
      · exact ih (idx + num_states) q h2
    · rw [if_neg h] at hq
      simp at hq

theorem fanAux_sum (num_states total_states : ℕ) (v : ℚ) :
    ∀ (fuel idx : ℕ),
      ((fanAux num_states total_states v fuel idx).map (·.2)).sum =
        ((fanAux num_states total_states v fuel idx).length : ℚ) * v := by
  intro fuel
  induction fuel with
  | zero => intro idx; simp [fanAux]
  | succ fuel ih =>
    intro idx
    simp only [fanAux]
    by_cases h : idx < total_states
    · rw [if_pos h]
      simp only [List.map_cons, List.sum_cons, List.length_cons, ih]
      push_cast
      ring
    · rw [if_neg h]
      simp

theorem fanAux_length (num_states num_pipelines : ℕ) (v : ℚ)
    (hn : 1 ≤ num_states) :
    ∀ (k : ℕ), k ≤ num_pipelines → ∀ (fuel : ℕ), k ≤ fuel →
      (fanAux num_states (num_pipelines * num_states + 1) v fuel
        (1 + (num_pipelines - k) * num_states)).length = k := by
  intro k
  induction k with
  | zero =>
    intro _ fuel _
    cases fuel with
    | zero => simp [fanAux]
    | succ fuel =>
      have hlt : ¬(1 + (num_pipelines - 0) * num_states <
          num_pipelines * num_states + 1) := by
        rw [Nat.sub_zero]
        omega
      simp only [fanAux]
      rw [if_neg hlt]
      simp
  | succ k ih =>
    intro hk fuel hfuel
    cases fuel with
    | zero => omega
    | succ fuel =>
      have hlt : 1 + (num_pipelines - (k + 1)) * num_states <
          num_pipelines * num_states + 1 := by
        have h1 : num_pipelines - (k + 1) < num_pipelines := by omega
        have h2 : (num_pipelines - (k + 1)) * num_states <
            num_pipelines * num_states :=
          Nat.mul_lt_mul_of_lt_of_le h1 (le_refl _) (by omega)
        omega
      have hidx : 1 + (num_pipelines - (k + 1)) * num_states + num_states =
          1 + (num_pipelines - k) * num_states := by
        have : num_pipelines - (k + 1) + 1 = num_pipelines - k := by omega
        calc 1 + (num_pipelines - (k + 1)) * num_states + num_states
            = 1 + (num_pipelines - (k + 1) + 1) * num_states := by ring
          _ = 1 + (num_pipelines - k) * num_states := by rw [this]
      simp only [fanAux]
      rw [if_pos hlt, List.length_cons, hidx, ih (by omega) fuel (by omega)]

end Pipelined

namespace Surakav

theorem read_lines_count :
    ∀ (raw : List ℕ) (c : ℕ),
      (read_lines raw c).2 =
        c + (read_lines raw c).1.countP (fun v => decide (v ≠ 0)) := by
  intro raw
  induction raw with
  | nil => intro c; simp [read_lines]
  | cons v rest ih =>
    intro c
    by_cases h : CUTOFF_LENGTH ≤ c
    · simp [read_lines, h]
    · have hrec := ih (c + if v ≠ 0 then 1 else 0)
      simp only [read_lines, if_neg h, List.countP_cons]
      by_cases hv : v = 0
      · simp [hv] at hrec ⊢
        omega
      · simp [hv] at hrec ⊢
        omega

theorem stateTargets_start_sur (next_index num_states : ℕ) :
    stateTargets (generate_start_state next_index num_states) =
      [next_index, next_index] := rfl

theorem stateTargets_block (next_index num_states : ℕ) :
    stateTargets (generate_block_state next_index num_states) =
      [next_index] := rfl

theorem stateTargets_burst_send (num_cells : ℚ)
    (curr_index next_index num_states : ℕ) :
    stateTargets
        (generate_burst_states num_cells curr_index next_index
          num_states).1 =
      [next_index, curr_index] := rfl

theorem stateTargets_burst_recv (num_cells : ℚ)
    (curr_index next_index num_states : ℕ) :
    stateTargets
        (generate_burst_states num_cells curr_index next_index
          num_states).2 =
      [next_index, curr_index, curr_index] := rfl

theorem burstLoop_targets (num_states : ℕ) :
    ∀ (lines : List ℕ) (curr next : ℕ) (rs : Bool),
      (next ≤ curr + 1 ∨
        (next ≤ num_states + 1 ∧ num_states ≤ curr + 1) ∨
        (next = num_states + 2 ∧ num_states ≤ curr)) →
      curr + lines.countP (fun v => decide (v ≠ 0)) ≤ num_states →
      (∀ s ∈ (burstLoop num_states lines curr next rs).1,
          ∀ t ∈ stateTargets s, t ≤ num_states + 1) ∧
        (∀ s ∈ (burstLoop num_states lines curr next rs).2,
          ∀ t ∈ stateTargets s, t ≤ num_states + 1) := by
  intro lines
  induction lines with
  | nil =>
    intro curr next rs _ _
    simp [burstLoop]
  | cons v rest ih =>
    intro curr next rs hnext hcount
    by_cases hv : v = 0
    · rw [show burstLoop num_states (v :: rest) curr next rs =
          burstLoop num_states rest curr next (!rs) by
        simp [burstLoop, hv]]
      apply ih curr next (!rs) hnext
      have hsplit0 : (v :: rest).countP (fun v => decide (v ≠ 0)) =
          rest.countP (fun v => decide (v ≠ 0)) := by
        rw [List.countP_cons]
        simp [hv]
      rw [hsplit0] at hcount
      exact hcount
    · have hsplit : (v :: rest).countP (fun v => decide (v ≠ 0)) =
          rest.countP (fun v => decide (v ≠ 0)) + 1 := by
        rw [List.countP_cons]
        simp [hv]
      rw [hsplit] at hcount
      have hcurr : curr + 1 ≤ num_states := by omega
      have hub : next ≤ num_states + 1 := by omega
      have hcount2 : curr + 1 + rest.countP (fun v => decide (v ≠ 0)) ≤
          num_states := by omega
      have hnext2 : (if next + 1 = num_states then num_states + 1
            else next + 1) ≤ curr + 1 + 1 ∨
          ((if next + 1 = num_states then num_states + 1 else next + 1) ≤
              num_states + 1 ∧ num_states ≤ curr + 1 + 1) ∨
          ((if next + 1 = num_states then num_states + 1 else next + 1) =
              num_states + 2 ∧ num_states ≤ curr + 1) := by
        by_cases hb : next + 1 = num_states
        · rw [if_pos hb]
          omega
        · rw [if_neg hb]
          omega
      have hrec := ih (curr + 1)
        (if next + 1 = num_states then num_states + 1 else next + 1)
        (!rs) hnext2 hcount2
      have hpairT : ∀ t ∈ stateTargets
          (generate_burst_states (v : ℚ) curr next num_states).1,
          t ≤ num_states + 1 := by
        rw [stateTargets_burst_send]
        intro t ht
        rcases List.mem_cons.mp ht with h1 | h2
        · omega
        · simp only [List.mem_singleton] at h2
          omega
      have hpairR : ∀ t ∈ stateTargets
          (generate_burst_states (v : ℚ) curr next num_states).2,
          t ≤ num_states + 1 := by
        rw [stateTargets_burst_recv]
        intro t ht
        rcases List.mem_cons.mp ht with h1 | h2
        · omega
        · rcases List.mem_cons.mp h2 with h3 | h4
          · omega
          · simp only [List.mem_singleton] at h4
            omega
      have hloop : burstLoop num_states (v :: rest) curr next rs =
          (let p := generate_burst_states (v : ℚ) curr next num_states
           let r := burstLoop num_states rest (curr + 1)
             (if next + 1 = num_states then num_states + 1 else next + 1)
             (!rs)
           if rs then (p.1 :: r.1, p.2 :: r.2)
           else (p.2 :: r.1, p.1 :: r.2)) := by
        simp [burstLoop, hv]
      rw [hloop]
      cases rs
      · simp only [if_neg Bool.false_ne_true]
        constructor
        · intro s hs
          rcases List.mem_cons.mp hs with h1 | h2
          · subst h1; exact hpairR
          · exact hrec.1 s h2
        · intro s hs
          rcases List.mem_cons.mp hs with h1 | h2
          · subst h1; exact hpairT
          · exact hrec.2 s h2
      · simp only [if_pos rfl]
        constructor
        · intro s hs
          rcases List.mem_cons.mp hs with h1 | h2
          · subst h1; exact hpairT
          · exact hrec.1 s h2
        · intro s hs
          rcases List.mem_cons.mp hs with h1 | h2
          · subst h1; exact hpairR
          · exact hrec.2 s h2

theorem burstLoop_lengths (num_states : ℕ) :
    ∀ (lines : List ℕ) (curr next : ℕ) (rs : Bool),
      (burstLoop num_states lines curr next rs).1.length =
          lines.countP (fun v => decide (v ≠ 0)) ∧
        (burstLoop num_states lines curr next rs).2.length =
          lines.countP (fun v => decide (v ≠ 0)) := by
  intro lines
  induction lines with
  | nil => intro curr next rs; simp [burstLoop]
  | cons v rest ih =>
    intro curr next rs
    simp only [burstLoop, List.countP_cons]
    by_cases hv : v = 0
    · rw [if_pos hv]
      simp only [hv]
      simpa using ih curr next (!rs)
    · rw [if_neg hv]
      rcases ih (curr + 1)
        (if next + 1 = num_states then num_states + 1 else next + 1)
        (!rs) with ⟨h1, h2⟩
      simp [hv] at h1 h2 ⊢
      cases rs <;> simp at h1 h2 ⊢ <;> omega

end Surakav

namespace Front

theorem stateTargets_padding (curr_index next_index num_states : ℕ)
    (padding_count timeout stdev : ℚ) :
    stateTargets (generate_padding_state curr_index next_index num_states
      padding_count timeout stdev) = [curr_index, next_index] := rfl

theorem stateTargets_start (num_states : ℕ) :
    stateTargets (generate_start_state num_states) = [1, 1] := rfl

end Front

namespace Pipelined

theorem stateTargets_padding_pipe (curr_index next_index total_states : ℕ)
    (padding_count timeout stdev : ℚ) :
    stateTargets (generate_padding_state curr_index next_index total_states
      padding_count timeout stdev) = [curr_index, next_index] := rfl

theorem stateTargets_start_lt (num_states num_pipelines total_states : ℕ)
    (hn : 1 ≤ num_states) :
    ∀ t ∈ stateTargets
        (generate_start_state num_states num_pipelines total_states),
      t < total_states := by
  intro t ht
  have hfan := startInsertLoop_eq_fanAux num_states num_pipelines
    total_states hn total_states 1 [] (by simp)
  simp only [stateTargets, generate_start_state, State.new, hfan,
    List.nil_append, List.flatMap_cons, List.flatMap_nil,
    List.append_nil, List.mem_append, List.mem_map] at ht
  rcases ht with ⟨q, hq, rfl⟩ | ⟨q, hq, rfl⟩ <;>
    exact fanAux_keys_lt num_states total_states _ total_states 1 q hq

end Pipelined

namespace Regulator

theorem stateTargets_client_send (num_states : ℕ) :
    stateTargets (generate_client_send_state num_states) = [0] := rfl

theorem stateTargets_client_count (curr_index next_index num_states : ℕ)
    (prob_trans : ℚ) :
    stateTargets (generate_client_count_state curr_index next_index
        num_states prob_trans) =
      if prob_trans < 1 then
        [next_index, curr_index, next_index, curr_index, next_index]
      else [next_index, next_index] := by
  by_cases h : prob_trans < 1 <;>
    simp [generate_client_count_state, stateTargets, State.new, h]

theorem stateTargets_relay_send (curr_index next_index num_states : ℕ)
    (padding_count timeout threshold rate : ℚ) :
    stateTargets (generate_relay_send_state curr_index next_index
        num_states padding_count timeout threshold rate) =
      curr_index :: next_index :: (if 11 < curr_index then [11] else []) := by
  by_cases h : 11 < curr_index <;>
    simp [generate_relay_send_state, stateTargets, State.new, h]

theorem stateTargets_boot (curr_index next_index num_states : ℕ)
    (timeout : ℚ) :
    stateTargets (generate_relay_boot_state curr_index next_index
      num_states timeout) = [curr_index, next_index] := rfl

theorem stateTargets_relay_block (num_states : ℕ) :
    stateTargets (generate_relay_block_state num_states) = [2] := rfl

theorem stateTargets_relay_start (num_states : ℕ) :
    stateTargets (generate_relay_start_state num_states) = [1] := rfl

theorem generate_client_machine_length (upload_ratio : ℚ) :
    (generate_client_machine upload_ratio).states.length =
      f64AsUsize upload_ratio + 1 := by
  simp [generate_client_machine, clientCountStates]

end Regulator

namespace Front

theorem stateTargets_loopState (ctx : Ctx) (m : ℕ) :
    stateTargets (loopState ctx m) = [m + 1, m + 2] := rfl

theorem stateTargets_lastState (ctx : Ctx) (m : ℕ) :
    stateTargets (lastState ctx m) =
      [ctx.num_states, ctx.num_states + 2] := rfl

end Front

namespace Pipelined

theorem stateTargets_loopState_pipe (ctx : Ctx) (total_states : ℕ)
    (curr_count : ℚ) (idx j : ℕ) :
    stateTargets (loopState ctx total_states curr_count idx j) =
      [idx, idx + 1] := rfl

theorem stateTargets_lastState_pipe (ctx : Ctx) (total_states : ℕ)
    (curr_count : ℚ) (idx j : ℕ) :
    stateTargets (lastState ctx total_states curr_count idx j) =
      [idx, total_states + 1] := rfl

theorem pipeBlock_length (ctx : Ctx) (total_states : ℕ) (step : ℚ)
    (m : ℕ) (hn : 1 ≤ ctx.num_states) :
    (pipeBlock ctx total_states step m).length = ctx.num_states := by
  rw [pipeBlock, pipeStates_length]
  omega

theorem pipe_machine_length (ctx : Ctx) (hn : 1 ≤ ctx.num_states) :
    (generate_machine ctx).states.length =
      ctx.num_pipelines * ctx.num_states + 1 := by
  rw [pipe_machine_states_eq]
  simp only [List.length_cons, List.length_flatten, List.map_map]
  have hconst : (List.range ctx.num_pipelines).map
      (List.length ∘ fun q => pipeBlock ctx
        (ctx.num_pipelines * ctx.num_states + 1)
        (1 / (ctx.num_states : ℚ) * (ctx.budget : ℚ) /
          (ctx.num_pipelines : ℚ)) q) =
      (List.range ctx.num_pipelines).map (fun _ => ctx.num_states) := by
    apply List.map_congr_left
    intro a _
    simp only [Function.comp_apply]
    exact pipeBlock_length ctx _ _ a hn
  rw [hconst]
  simp [List.map_const', List.sum_replicate, smul_eq_mul, Nat.mul_comm]

end Pipelined

namespace Surakav

theorem parse_file_lengths (raw : List ℕ) :
    (parse_file raw).1.states.length = (read_lines raw 0).2 + 2 ∧
      (parse_file raw).2.states.length = (read_lines raw 0).2 + 2 := by
  have hc := read_lines_count raw 0
  rcases burstLoop_lengths ((read_lines raw 0).2 + 2) (read_lines raw 0).1
    2 3 false with ⟨h1, h2⟩
  simp only [parse_file, List.length_cons]
  constructor <;> omega

end Surakav

namespace Front

theorem sums_le_padding (curr_index next_index num_states : ℕ)
    (padding_count timeout stdev : ℚ) :
    ∀ e, eventProbSum (generate_padding_state curr_index next_index
      num_states padding_count timeout stdev) e ≤ 1 := by
  intro e
  cases e <;>
    simp [eventProbSum, lookupEvent, generate_padding_state, State.new]

theorem sums_le_start (num_states : ℕ) :
    ∀ e, eventProbSum (generate_start_state num_states) e ≤ 1 := by
  intro e
  cases e <;>
    simp [eventProbSum, lookupEvent, generate_start_state, State.new]

end Front

namespace Pipelined

theorem sums_le_padding_pipe (curr_index next_index total_states : ℕ)
    (padding_count timeout stdev : ℚ) :
    ∀ e, eventProbSum (generate_padding_state curr_index next_index
      total_states padding_count timeout stdev) e ≤ 1 := by
  intro e
  cases e <;>
    simp [eventProbSum, lookupEvent, generate_padding_state, State.new]

theorem sums_le_start_pipe (num_states num_pipelines : ℕ)
    (hn : 1 ≤ num_states) (hp : 1 ≤ num_pipelines) :
    ∀ e, eventProbSum (generate_start_state num_states num_pipelines
      (num_pipelines * num_states + 1)) e ≤ 1 := by
  have hfan : startInsertLoop num_states num_pipelines
      (num_pipelines * num_states + 1) (num_pipelines * num_states + 1)
      1 [] =
      fanAux num_states (num_pipelines * num_states + 1)
        (1 / (num_pipelines : ℚ)) (num_pipelines * num_states + 1) 1 := by
    have h := startInsertLoop_eq_fanAux num_states num_pipelines
      (num_pipelines * num_states + 1) hn
      (num_pipelines * num_states + 1) 1 [] (by simp)
    simpa using h
  have hlen : (fanAux num_states (num_pipelines * num_states + 1)
      (1 / (num_pipelines : ℚ)) (num_pipelines * num_states + 1)
      1).length = num_pipelines := by
    have hfuel : num_pipelines ≤ num_pipelines * num_states + 1 := by
      have := Nat.mul_le_mul_left num_pipelines hn
      omega
    have h := fanAux_length num_states num_pipelines
      (1 / (num_pipelines : ℚ)) hn num_pipelines (le_refl _)
      (num_pipelines * num_states + 1) hfuel
    simpa using h
  have hp0 : ((num_pipelines : ℚ)) ≠ 0 := by
    exact_mod_cast Nat.pos_iff_ne_zero.mp (by omega)
  have hsum : ((fanAux num_states (num_pipelines * num_states + 1)
      (1 / (num_pipelines : ℚ)) (num_pipelines * num_states + 1) 1).map
        (·.2)).sum = 1 := by
    rw [fanAux_sum, hlen]
    field_simp
  simp only [one_div] at hfan hsum
  intro e
  cases e <;>
    simp [eventProbSum, lookupEvent, generate_start_state, State.new,
      hfan, hsum]

end Pipelined

namespace Regulator

theorem sums_le_client_send (num_states : ℕ) :
    ∀ e, eventProbSum (generate_client_send_state num_states) e ≤ 1 := by
  intro e
  cases e <;>
    simp [eventProbSum, lookupEvent, generate_client_send_state, State.new]

theorem sums_le_client_count (curr_index next_index num_states : ℕ)
    (prob_trans : ℚ) (hne : curr_index ≠ next_index)
    (hle : prob_trans ≤ 1) :
    ∀ e, eventProbSum (generate_client_count_state curr_index next_index
      num_states prob_trans) e ≤ 1 := by
  intro e
  by_cases hlt : prob_trans < 1
  · cases e <;>
      simp [eventProbSum, lookupEvent, generate_client_count_state,
        State.new, hlt] <;>
      ring_nf <;> norm_num
  · cases e <;>
      simp [eventProbSum, lookupEvent, generate_client_count_state,
        State.new, hlt] <;>
      linarith

theorem sums_le_boot (curr_index next_index num_states : ℕ)
    (timeout : ℚ) :
    ∀ e, eventProbSum (generate_relay_boot_state curr_index next_index
      num_states timeout) e ≤ 1 := by
  intro e
  cases e <;>
    simp [eventProbSum, lookupEvent, generate_relay_boot_state, State.new]

theorem sums_le_relay_block (num_states : ℕ) :
    ∀ e, eventProbSum (generate_relay_block_state num_states) e ≤ 1 := by
  intro e
  cases e <;>
    simp [eventProbSum, lookupEvent, generate_relay_block_state, State.new]

theorem sums_le_relay_start (num_states : ℕ) :
    ∀ e, eventProbSum (generate_relay_start_state num_states) e ≤ 1 := by
  intro e
  cases e <;>
    simp [eventProbSum, lookupEvent, generate_relay_start_state, State.new]

theorem sums_le_relay_send (curr_index next_index num_states : ℕ)
    (padding_count timeout threshold rate : ℚ)
    (hreset : 2 / (threshold * rate) ≤ 1) :
    ∀ e, eventProbSum (generate_relay_send_state curr_index next_index
      num_states padding_count timeout threshold rate) e ≤ 1 := by
  intro e
  by_cases hc : 11 < curr_index
  · cases e <;>
      simp [eventProbSum, lookupEvent, generate_relay_send_state,
        State.new, hc] <;>
      linarith
  · cases e <;>
      simp [eventProbSum, lookupEvent, generate_relay_send_state,
        State.new, hc]

end Regulator

namespace Surakav

theorem sums_le_start_sur (next_index num_states : ℕ) :
    ∀ e, eventProbSum (generate_start_state next_index num_states) e
      ≤ 1 := by
  intro e
  cases e <;>
    simp [eventProbSum, lookupEvent, generate_start_state, State.new]

theorem sums_le_block (next_index num_states : ℕ) :
    ∀ e, eventProbSum (generate_block_state next_index num_states) e
      ≤ 1 := by
  intro e
  cases e <;>
    simp [eventProbSum, lookupEvent, generate_block_state, State.new]

theorem sums_le_burst_send (num_cells : ℚ)
    (curr_index next_index num_states : ℕ) :
    ∀ e, eventProbSum (generate_burst_states num_cells curr_index
      next_index num_states).1 e ≤ 1 := by
  intro e
  cases e <;>
    simp [eventProbSum, lookupEvent, generate_burst_states, State.new]

theorem sums_le_burst_recv (num_cells : ℚ)
    (curr_index next_index num_states : ℕ) :
    ∀ e, eventProbSum (generate_burst_states num_cells curr_index
      next_index num_states).2 e ≤ 1 := by
  intro e
  cases e <;>
    simp [eventProbSum, lookupEvent, generate_burst_states, State.new]

end Surakav

namespace Front

theorem sums_le_loopState (ctx : Ctx) (m : ℕ) :
    ∀ e, eventProbSum (loopState ctx m) e ≤ 1 := by
  simp only [loopState]
  exact sums_le_padding _ _ _ _ _ _

theorem sums_le_lastState (ctx : Ctx) (m : ℕ) :
    ∀ e, eventProbSum (lastState ctx m) e ≤ 1 := by
  simp only [lastState]
  exact sums_le_padding _ _ _ _ _ _

end Front

namespace Pipelined

theorem sums_le_loopState_pipe (ctx : Ctx) (total_states : ℕ)
    (curr_count : ℚ) (idx j : ℕ) :
    ∀ e, eventProbSum (loopState ctx total_states curr_count idx j) e
      ≤ 1 := by
  simp only [loopState]
  exact sums_le_padding_pipe _ _ _ _ _ _

theorem sums_le_lastState_pipe (ctx : Ctx) (total_states : ℕ)
    (curr_count : ℚ) (idx j : ℕ) :
    ∀ e, eventProbSum (lastState ctx total_states curr_count idx j) e
      ≤ 1 := by
  simp only [lastState]
  exact sums_le_padding_pipe _ _ _ _ _ _

end Pipelined

namespace Regulator

theorem sums_le_mkSendState (ctx : RelayCtx) (num_states i : ℕ)
    (hreset : 2 / (ctx.threshold * sendRate ctx i) ≤ 1) :
    ∀ e, eventProbSum (mkSendState ctx num_states i) e ≤ 1 := by
  rw [mkSendState_eq]
  exact sums_le_relay_send _ _ _ _ _ _ _ hreset

/-- A floor of at least one forces `upload_ratio >= 1`, hence a
nonnegative fractional part and a last-counter probability of at
most one. -/
theorem prob_last_trans_le_one (upload_ratio : ℚ)
    (h : 1 ≤ f64AsUsize upload_ratio) :
    1 - f64Fract upload_ratio ≤ 1 := by
  have hfloor : (1 : ℤ) ≤ ⌊upload_ratio⌋ := by
    by_contra hlt
    push_neg at hlt
    have : f64AsUsize upload_ratio = 0 := by
      unfold f64AsUsize
      omega
    omega
  have hge : (1 : ℚ) ≤ upload_ratio := by
    have := Int.le_floor.mp hfloor
    exact_mod_cast this
  have h0 : (0 : ℚ) ≤ upload_ratio := by linarith
  have : f64Fract upload_ratio = upload_ratio - (⌊upload_ratio⌋ : ℚ) := by
    unfold f64Fract
    rw [if_pos h0]
  rw [this]
  have := Int.floor_le upload_ratio
  linarith

end Regulator

namespace Surakav

theorem burstLoop_sums (num_states : ℕ) :
    ∀ (lines : List ℕ) (curr next : ℕ) (rs : Bool),
      (∀ s ∈ (burstLoop num_states lines curr next rs).1,
          ∀ e, eventProbSum s e ≤ 1) ∧
        (∀ s ∈ (burstLoop num_states lines curr next rs).2,
          ∀ e, eventProbSum s e ≤ 1) := by
  intro lines
  induction lines with
  | nil =>
    intro curr next rs
    simp [burstLoop]
  | cons v rest ih =>
    intro curr next rs
    by_cases hv : v = 0
    · rw [show burstLoop num_states (v :: rest) curr next rs =
          burstLoop num_states rest curr next (!rs) by
        simp [burstLoop, hv]]
      exact ih curr next (!rs)
    · have hrec := ih (curr + 1)
        (if next + 1 = num_states then num_states + 1 else next + 1) (!rs)
      have hloop : burstLoop num_states (v :: rest) curr next rs =
          (let p := generate_burst_states (v : ℚ) curr next num_states
           let r := burstLoop num_states rest (curr + 1)
             (if next + 1 = num_states then num_states + 1 else next + 1)
             (!rs)
           if rs then (p.1 :: r.1, p.2 :: r.2)
           else (p.2 :: r.1, p.1 :: r.2)) := by
        simp [burstLoop, hv]
      rw [hloop]
      cases rs
      · simp only [if_neg Bool.false_ne_true]
        constructor
        · intro s hs
          rcases List.mem_cons.mp hs with rfl | hs
          · exact sums_le_burst_recv _ _ _ _
          · exact hrec.1 s hs
        · intro s hs
          rcases List.mem_cons.mp hs with rfl | hs
          · exact sums_le_burst_send _ _ _ _
          · exact hrec.2 s hs
      · simp only [if_pos rfl]
        constructor
        · intro s hs
          rcases List.mem_cons.mp hs with rfl | hs
          · exact sums_le_burst_send _ _ _ _
          · exact hrec.1 s hs
        · intro s hs
          rcases List.mem_cons.mp hs with rfl | hs
          · exact sums_le_burst_recv _ _ _ _
          · exact hrec.2 s hs

end Surakav

namespace Regulator

theorem calcIntervalWidthSol_spec {count rate decay a w : ℝ}
    (h : calcIntervalWidthSol count rate decay a = some w) :
    0 < w ∧ calculate_rate (a + w / 2) rate decay * w = count := by
  rw [calcIntervalWidthSol] at h
  split at h
  · rename_i hex
    rcases Option.some_inj.mp h with rfl
    exact hex.choose_spec
  · exact absurd h (by simp)

/-- Any root of the midpoint equation is at least `count / rate` when
the decay base lies in `(0, 1]` and the interval starts at a
nonnegative cursor. -/
theorem calcIntervalWidthSol_lb {count rate decay a w : ℝ}
    (hc : 0 < count) (hR : 0 < rate) (hD0 : 0 < decay) (hD1 : decay ≤ 1)
    (ha : 0 ≤ a)
    (h : calcIntervalWidthSol count rate decay a = some w) :
    count / rate ≤ w := by
  obtain ⟨hw, heq⟩ := calcIntervalWidthSol_spec h
  have hm : 0 ≤ a + w / 2 := by linarith
  have hpow : decay ^ (a + w / 2) ≤ 1 :=
    Real.rpow_le_one (le_of_lt hD0) hD1 hm
  have hle : count ≤ rate * w := by
    calc count = rate * decay ^ (a + w / 2) * w := by
          rw [← heq, calculate_rate]
      _ ≤ rate * 1 * w := by
          apply mul_le_mul_of_nonneg_right _ (le_of_lt hw)
          exact mul_le_mul_of_nonneg_left hpow (le_of_lt hR)
      _ = rate * w := by ring
  rw [div_le_iff₀ hR]
  linarith

end Regulator

namespace Front

theorem rayleigh_cdf_lt_one (t scale : ℝ) : rayleigh_cdf t scale < 1 := by
  have h := Real.exp_pos (-(t ^ 2) / (2 * scale ^ 2))
  simp only [rayleigh_cdf]
  linarith

/-- On termination the bisection loop's result satisfies the
`f64::EPSILON` area tolerance. -/
theorem cwLoop_accuracy (a area scale : ℝ) :
    ∀ (fuel : ℕ) (b increment w : ℝ),
      cwLoop a area scale fuel b increment = some w →
      |rayleigh_cdf (a + w) scale - rayleigh_cdf a scale - area| ≤
        EPSILON := by
  intro fuel
  induction fuel with
  | zero =>
    intro b increment w h
    exact absurd h (by simp [cwLoop])
  | succ fuel ih =>
    intro b increment w h
    simp only [cwLoop] at h
    by_cases hg : EPSILON <
        |area - (rayleigh_cdf b scale - rayleigh_cdf a scale)|
    · rw [if_pos hg] at h
      exact ih _ _ _ h
    · rw [if_neg hg] at h
      rcases Option.some_inj.mp h with rfl
      push_neg at hg
      have hb : a + (b - a) = b := by ring
      rw [hb]
      calc |rayleigh_cdf b scale - rayleigh_cdf a scale - area|
          = |area - (rayleigh_cdf b scale - rayleigh_cdf a scale)| := by
            rw [abs_sub_comm]
        _ ≤ EPSILON := hg

theorem EPSILON_pos : (0 : ℝ) < EPSILON := by
  rw [EPSILON]
  positivity

theorem EPSILON_lt_quarter : EPSILON < 1 / 4 := by
  rw [EPSILON, show ((-52 : ℤ) : ℤ) = -(52 : ℕ) by norm_num,
    zpow_neg, zpow_natCast]
  rw [inv_lt_comm₀ (by positivity) (by norm_num)]
  norm_num

theorem four_lt_exp_nine_halves : (4 : ℝ) < Real.exp (9 / 2) := by
  have h1 : Real.exp 2 ≤ Real.exp (9 / 2) :=
    Real.exp_le_exp.mpr (by norm_num)
  have h2 : Real.exp 2 = Real.exp 1 ^ 2 := by
    rw [← Real.exp_nat_mul]
    norm_num
  have h3 : (2.7182818283 : ℝ) ^ 2 ≤ Real.exp 1 ^ 2 := by
    apply pow_le_pow_left (by norm_num)
    exact le_of_lt Real.exp_one_gt_d9
  nlinarith

theorem exp_nine_halves_lt : Real.exp (9 / 2) < 149 := by
  have h1 : Real.exp (9 / 2) ≤ Real.exp 5 :=
    Real.exp_le_exp.mpr (by norm_num)
  have h2 : Real.exp 5 = Real.exp 1 ^ 5 := by
    rw [← Real.exp_nat_mul]
    norm_num
  have h3 : Real.exp 1 ^ 5 < (2.7182818286 : ℝ) ^ 5 := by
    apply pow_lt_pow_left Real.exp_one_lt_d9 (le_of_lt (Real.exp_pos 1))
    norm_num
  nlinarith

theorem exp_neg_nine_halves_lt_quarter :
    Real.exp (-(9 / 2)) < 1 / 4 := by
  rw [Real.exp_neg, ← one_div]
  calc 1 / Real.exp (9 / 2) < 1 / 4 :=
    one_div_lt_one_div_of_lt (by norm_num) four_lt_exp_nine_halves

theorem rayleigh_cdf_three_one :
    rayleigh_cdf 3 1 = 1 - Real.exp (-(9 / 2)) := by
  simp only [rayleigh_cdf]
  norm_num

/-- At `a = 3`, `area = 1/2`, `scale = 1` the area deficit always stays
at least `1/4` (the cumulative mass to the right of 3 is below `1/4`),
so the bisection guard never releases and the loop never terminates. -/
theorem cwLoop_diverges :
    ∀ (fuel : ℕ) (b increment : ℝ),
      cwLoop 3 (1 / 2) 1 fuel b increment = none := by
  intro fuel
  induction fuel with
  | zero => intro b increment; rfl
  | succ fuel ih =>
    intro b increment
    have hblt : rayleigh_cdf b 1 < 1 := rayleigh_cdf_lt_one b 1
    have h3 : rayleigh_cdf 3 1 = 1 - Real.exp (-(9 / 2)) :=
      rayleigh_cdf_three_one
    have hdiff : (1 : ℝ) / 4 ≤
        1 / 2 - (rayleigh_cdf b 1 - rayleigh_cdf 3 1) := by
      have hexp := exp_neg_nine_halves_lt_quarter
      rw [h3]
      linarith
    have hg : EPSILON <
        |1 / 2 - (rayleigh_cdf b 1 - rayleigh_cdf 3 1)| := by
      rw [abs_of_pos (by linarith [EPSILON_pos])]
      linarith [EPSILON_lt_quarter]
    simp only [cwLoop]
    rw [if_pos hg]
    exact ih _ _

theorem three_lt_rayleigh_max_t_one : (3 : ℝ) < rayleigh_max_t 1 := by
  simp only [rayleigh_max_t]
  rw [Real.lt_sqrt (by norm_num)]
  have hb : (1 : ℝ) - 0.9996645373720975 = 0.0003354626279025 := by
    norm_num
  rw [hb]
  have hblt : (0.0003354626279025 : ℝ) < Real.exp (-(9 / 2)) := by
    have h1 : 1 / (149 : ℝ) < 1 / Real.exp (9 / 2) :=
      one_div_lt_one_div_of_lt (Real.exp_pos _) exp_nine_halves_lt
    have h2 : (0.0003354626279025 : ℝ) < 1 / 149 := by norm_num
    rw [Real.exp_neg, ← one_div]
    linarith
  have hlog : Real.log (0.0003354626279025 : ℝ) < -(9 / 2) := by
    rw [Real.log_lt_iff_lt_exp (by norm_num)]
    exact hblt
  nlinarith

/-- The bisection returns immediately (fuel 1) when the initial
candidate already matches the target area: at `a = 0`, `scale = 1` and
`area` equal to the quantile constant, the initial area deficit is 0. -/
theorem calc_interval_width_at_quantile :
    calc_interval_width 0 (rayleigh_max_t 1) 0.9996645373720975 1 1 =
      some (rayleigh_max_t 1 - 0) := by
  have hb : (0 : ℝ) < 1 - 0.9996645373720975 := by norm_num
  have hb1 : (1 : ℝ) - 0.9996645373720975 < 1 := by norm_num
  have hlog : Real.log (1 - 0.9996645373720975) < 0 :=
    Real.log_neg hb hb1
  have harg : (0 : ℝ) ≤ -2 * 1 ^ 2 * Real.log (1 - 0.9996645373720975) := by
    nlinarith
  have hsq : rayleigh_max_t 1 ^ 2 =
      -2 * 1 ^ 2 * Real.log (1 - 0.9996645373720975) := by
    simp only [rayleigh_max_t]
    exact Real.sq_sqrt harg
  have hcdfmax : rayleigh_cdf (rayleigh_max_t 1) 1 =
      0.9996645373720975 := by
    simp only [rayleigh_cdf]
    rw [hsq]
    have : -(-2 * 1 ^ 2 * Real.log (1 - 0.9996645373720975)) /
        (2 * 1 ^ 2) = Real.log (1 - 0.9996645373720975) := by
      ring
    rw [this, Real.exp_log hb]
    ring
  have hcdf0 : rayleigh_cdf 0 1 = 0 := by
    simp [rayleigh_cdf]
  rw [calc_interval_width]
  simp only [cwLoop, hcdfmax, hcdf0]
  rw [if_neg (by
    simp only [sub_zero, sub_self, abs_zero]
    exact not_lt.mpr (le_of_lt EPSILON_pos))]

end Front

section Claims

/-- C1, corrected: in every generated machine every transition target
index lies in `[0, states.len() + 1]`, where the virtual terminal
`StateEnd` index equals `states.len() + 1` (the claim's bound
`states.len()`, with `End = states.len()`, is refuted by
`claim_C1_counterexample`). -/
theorem claim_C1 :
    (∀ ctx : Front.Ctx, 1 ≤ ctx.num_states →
      machineTargetsLe (Front.generate_machine ctx)
        ((Front.generate_machine ctx).states.length + 1)) ∧
    (∀ ctx : Pipelined.Ctx, 1 ≤ ctx.num_states →
      machineTargetsLe (Pipelined.generate_machine ctx)
        ((Pipelined.generate_machine ctx).states.length + 1)) ∧
    (∀ upload_ratio : ℚ,
      machineTargetsLe (Regulator.generate_client_machine upload_ratio)
        ((Regulator.generate_client_machine upload_ratio).states.length
          + 1)) ∧
    (∀ (ctx : Regulator.RelayCtx) (num_send_states : ℕ),
      machineTargetsLe (Regulator.relayMachineWith ctx num_send_states)
        ((Regulator.relayMachineWith ctx num_send_states).states.length
          + 1)) ∧
    (∀ raw : List ℕ,
      machineTargetsLe (Surakav.parse_file raw).1
          ((Surakav.parse_file raw).1.states.length + 1) ∧
        machineTargetsLe (Surakav.parse_file raw).2
          ((Surakav.parse_file raw).2.states.length + 1)) := by
  refine ⟨?_, ?_, ?_, ?_, ?_⟩
  · -- FRONT
    intro ctx hn
    rw [machineTargetsLe, Front.generate_machine_length ctx hn]
    intro s hs t ht
    rw [Front.generate_machine_states_eq] at hs
    rcases List.mem_cons.mp hs with rfl | hs
    · rw [Front.stateTargets_start] at ht
      rcases List.mem_cons.mp ht with rfl | ht
      · omega
      · simp only [List.mem_singleton] at ht
        omega
    rcases List.mem_append.mp hs with hs | hs
    · rcases List.mem_map.mp hs with ⟨m, hm, rfl⟩
      rw [Front.stateTargets_loopState] at ht
      rw [List.mem_range] at hm
      rcases List.mem_cons.mp ht with rfl | ht
      · omega
      · simp only [List.mem_singleton] at ht
        omega
    · simp only [List.mem_singleton] at hs
      subst hs
      rw [Front.stateTargets_lastState] at ht
      rcases List.mem_cons.mp ht with rfl | ht
      · omega
      · simp only [List.mem_singleton] at ht
        omega
  · -- Pipelined FRONT
    intro ctx hn
    rw [machineTargetsLe, Pipelined.pipe_machine_length ctx hn]
    intro s hs t ht
    rw [Pipelined.pipe_machine_states_eq] at hs
    rcases List.mem_cons.mp hs with rfl | hs
    · have := Pipelined.stateTargets_start_lt ctx.num_states
        ctx.num_pipelines (ctx.num_pipelines * ctx.num_states + 1) hn t ht
      omega
    rcases List.mem_flatten.mp hs with ⟨blk, hblk, hsblk⟩
    rcases List.mem_map.mp hblk with ⟨q, hq, rfl⟩
    rw [List.mem_range] at hq
    rw [Pipelined.pipeBlock] at hsblk
    have h0 : (0 : ℚ) = Pipelined.cursorF ctx 0 := rfl
    rw [h0, Pipelined.pipeStates_eq] at hsblk
    rcases List.mem_append.mp hsblk with hsb | hsb
    · rcases List.mem_map.mp hsb with ⟨a, ha, rfl⟩
      rw [List.mem_range] at ha
      rw [Pipelined.stateTargets_loopState_pipe] at ht
      have hmul : (q + 1) * ctx.num_states ≤
          ctx.num_pipelines * ctx.num_states :=
        Nat.mul_le_mul_right _ (by omega)
      have hqn : (q + 1) * ctx.num_states =
          q * ctx.num_states + ctx.num_states := by ring
      rcases List.mem_cons.mp ht with rfl | ht
      · omega
      · simp only [List.mem_singleton] at ht
        omega
    · simp only [List.mem_singleton] at hsb
      subst hsb
      rw [Pipelined.stateTargets_lastState_pipe] at ht
      have hmul : (q + 1) * ctx.num_states ≤
          ctx.num_pipelines * ctx.num_states :=
        Nat.mul_le_mul_right _ (by omega)
      have hqn : (q + 1) * ctx.num_states =
          q * ctx.num_states + ctx.num_states := by ring
      rcases List.mem_cons.mp ht with rfl | ht
      · omega
      · simp only [List.mem_singleton] at ht
        omega
  · -- RegulaTor client
    intro upload_ratio
    rw [machineTargetsLe, Regulator.generate_client_machine_length]
    intro s hs t ht
    simp only [Regulator.generate_client_machine,
      Regulator.clientCountStates, List.mem_append, List.mem_map,
      List.mem_range, List.mem_singleton] at hs
    rcases hs with ⟨j, hj, rfl⟩ | rfl
    · rw [Regulator.stateTargets_client_count] at ht
      by_cases hp : (if j + 1 = f64AsUsize upload_ratio + 1 - 1 then
          1 - f64Fract upload_ratio else 1) < 1
      · rw [if_pos hp] at ht
        simp only [List.mem_cons, List.mem_singleton, List.not_mem_nil, or_false] at ht
        rcases ht with rfl | rfl | rfl | rfl | rfl <;> omega
      · rw [if_neg hp] at ht
        simp only [List.mem_cons, List.mem_singleton, List.not_mem_nil, or_false] at ht
        rcases ht with rfl | rfl <;> omega
    · rw [Regulator.stateTargets_client_send] at ht
      simp only [List.mem_singleton] at ht
      omega
  · -- RegulaTor relay
    intro ctx n
    have hlen : (Regulator.relayMachineWith ctx n).states.length =
        n + 11 := Regulator.relayStates_length ctx n
    rw [machineTargetsLe, hlen]
    intro s hs t ht
    have hst : (Regulator.relayMachineWith ctx n).states =
        Regulator.relayStates ctx n := rfl
    rw [hst, Regulator.relayStates_eq] at hs
    rcases List.mem_append.mp hs with hs | hs
    · simp only [List.mem_cons, List.mem_singleton, List.not_mem_nil, or_false] at hs
      rcases hs with rfl | rfl | rfl | rfl | rfl | rfl | rfl | rfl | rfl |
        rfl | rfl
      · rw [Regulator.stateTargets_relay_start] at ht
        simp only [List.mem_singleton] at ht
        omega
      · rw [Regulator.stateTargets_relay_block] at ht
        simp only [List.mem_singleton] at ht
        omega
      all_goals
        rw [Regulator.stateTargets_boot] at ht
        simp only [List.mem_cons, List.mem_singleton, List.not_mem_nil, or_false] at ht
        rcases ht with rfl | rfl <;> omega
    · rcases List.mem_map.mp hs with ⟨j, hj, rfl⟩
      rw [List.mem_range] at hj
      rw [Regulator.mkSendState_eq, Regulator.stateTargets_relay_send]
        at ht
      rcases List.mem_cons.mp ht with rfl | ht
      · omega
      rcases List.mem_cons.mp ht with rfl | ht
      · rw [Regulator.sendNext]
        by_cases he : Regulator.sendEnds ctx j
        · rw [if_pos he]
        · rw [if_neg he]
          omega
      · by_cases hc : 11 < j + 11
        · rw [if_pos hc] at ht
          simp only [List.mem_singleton] at ht
          omega
        · rw [if_neg hc] at ht
          simp at ht
  · -- Surakav
    intro raw
    rcases Surakav.parse_file_lengths raw with ⟨hl1, hl2⟩
    have hcount := Surakav.read_lines_count raw 0
    have hbody := Surakav.burstLoop_targets ((Surakav.read_lines raw 0).2 + 2)
      (Surakav.read_lines raw 0).1 2 3 false (by omega) (by omega)
    constructor
    · rw [machineTargetsLe, hl1]
      intro s hs t ht
      simp only [Surakav.parse_file, List.mem_cons] at hs
      rcases hs with rfl | hs
      · rw [Surakav.stateTargets_start_sur] at ht
        simp only [List.mem_cons, List.mem_singleton, List.not_mem_nil, or_false] at ht
        rcases ht with rfl | rfl <;> omega
      rcases hs with rfl | hs
      · rw [Surakav.stateTargets_block] at ht
        simp only [List.mem_singleton] at ht
        omega
      · exact hbody.1 s hs t ht
    · rw [machineTargetsLe, hl2]
      intro s hs t ht
      simp only [Surakav.parse_file, List.mem_cons] at hs
      rcases hs with rfl | hs
      · rw [Surakav.stateTargets_start_sur] at ht
        simp only [List.mem_cons, List.mem_singleton, List.not_mem_nil, or_false] at ht
        rcases ht with rfl | rfl <;> omega
      rcases hs with rfl | hs
      · rw [Surakav.stateTargets_block] at ht
        simp only [List.mem_singleton] at ht
        omega
      · exact hbody.2 s hs t ht

/-- C1 counterexample: the claim as stated (every transition target lies
in `[0, states.len()]`, with the End index equal to `states.len()`) is
false.  The FRONT machine for `num_states = 1` has 2 states, yet its
padding state's `LimitReached` target is `num_states + 2 = 3 >
states.len() = 2` (the End index the code uses is `states.len() + 1`). -/
theorem claim_C1_counterexample :
    (Front.generate_machine
        { window := 1, budget := 1, num_states := 1, max_t := 4,
          widthFn := fun _ => 0, sqrt_pi := 2 }).states.length = 2 ∧
      ¬ machineTargetsLe
        (Front.generate_machine
          { window := 1, budget := 1, num_states := 1, max_t := 4,
            widthFn := fun _ => 0, sqrt_pi := 2 })
        (Front.generate_machine
          { window := 1, budget := 1, num_states := 1, max_t := 4,
            widthFn := fun _ => 0, sqrt_pi := 2 }).states.length := by
  constructor <;> decide

/-- C1 witness: the amended bound instantiated at concrete FRONT and
Pipelined FRONT machines. -/
theorem claim_C1_witness :
    machineTargetsLe
        (Front.generate_machine
          { window := 1, budget := 2, num_states := 2, max_t := 4,
            widthFn := fun _ => 1, sqrt_pi := 2 })
        ((Front.generate_machine
          { window := 1, budget := 2, num_states := 2, max_t := 4,
            widthFn := fun _ => 1, sqrt_pi := 2 }).states.length + 1) ∧
      machineTargetsLe
        (Pipelined.generate_machine
          { window := 1, budget := 6, num_states := 2, num_pipelines := 3,
            max_t := 4, widthFn := fun _ => 1, sqrt_pi := 2 })
        ((Pipelined.generate_machine
          { window := 1, budget := 6, num_states := 2, num_pipelines := 3,
            max_t := 4, widthFn := fun _ => 1, sqrt_pi := 2 }).states.length
          + 1) :=
  ⟨claim_C1.1 _ (by decide), claim_C1.2.1 _ (by decide)⟩

/-- C5: for every `window > 0`, `budget > 0` and `num_states >= 1`, the
FRONT machine has exactly `num_states + 1` states (START at index 0 plus
`num_states` padding states), every non-last padding state's limit
distribution is `Uniform(1, area * budget)` with `area =
1/num_states`, and the last padding state's limit distribution is
`Uniform(1, (1 - (num_states - 1) * area) * budget)`. -/
theorem claim_C5 (ctx : Front.Ctx) (hw : 0 < ctx.window)
    (hb : 0 < ctx.budget) (hn : 1 ≤ ctx.num_states) :
    (Front.generate_machine ctx).states.length = ctx.num_states + 1 ∧
    (∀ j < ctx.num_states - 1,
      ((Front.generate_machine ctx).states.get? (j + 1)).map State.limit =
        some { dist := DistType.Uniform, param1 := ((1 : ℚ) : FVal),
               param2 := ((1 / (ctx.num_states : ℚ) *
                 (ctx.budget : ℚ) : ℚ) : FVal),
               start := ((0 : ℚ) : FVal), max := ((0 : ℚ) : FVal) }) ∧
    ((Front.generate_machine ctx).states.getLast?).map State.limit =
      some { dist := DistType.Uniform, param1 := ((1 : ℚ) : FVal),
             param2 := (((1 - ((ctx.num_states - 1 : ℕ) : ℚ) *
               (1 / (ctx.num_states : ℚ))) * (ctx.budget : ℚ) : ℚ) : FVal),
             start := ((0 : ℚ) : FVal), max := ((0 : ℚ) : FVal) } := by
  refine ⟨Front.generate_machine_length ctx hn, ?_, ?_⟩
  · intro j hj
    rw [Front.generate_machine_states_eq, List.get?_cons_succ,
      List.get?_append (by simpa using hj), List.get?_map,
      List.get?_range hj]
    rfl
  · rw [Front.generate_machine_states_eq, ← List.cons_append,
      List.getLast?_concat]
    rfl

/-- C5 witness: the statement instantiated at `window = 1`,
`budget = 5`, `num_states = 3`. -/
theorem claim_C5_witness :
    (Front.generate_machine
        { window := 1, budget := 5, num_states := 3, max_t := 4,
          widthFn := fun _ => 1, sqrt_pi := 2 }).states.length = 3 + 1 ∧
    (∀ j < 3 - 1,
      ((Front.generate_machine
          { window := 1, budget := 5, num_states := 3, max_t := 4,
            widthFn := fun _ => 1, sqrt_pi := 2 }).states.get? (j + 1)).map
          State.limit =
        some { dist := DistType.Uniform, param1 := ((1 : ℚ) : FVal),
               param2 := ((1 / ((3 : ℕ) : ℚ) * ((5 : ℕ) : ℚ) : ℚ) : FVal),
               start := ((0 : ℚ) : FVal), max := ((0 : ℚ) : FVal) }) ∧
    ((Front.generate_machine
        { window := 1, budget := 5, num_states := 3, max_t := 4,
          widthFn := fun _ => 1, sqrt_pi := 2 }).states.getLast?).map
        State.limit =
      some { dist := DistType.Uniform, param1 := ((1 : ℚ) : FVal),
             param2 := (((1 - ((3 - 1 : ℕ) : ℚ) * (1 / ((3 : ℕ) : ℚ))) *
               ((5 : ℕ) : ℚ) : ℚ) : FVal),
             start := ((0 : ℚ) : FVal), max := ((0 : ℚ) : FVal) } :=
  claim_C5
    { window := 1, budget := 5, num_states := 3, max_t := 4,
      widthFn := fun _ => 1, sqrt_pi := 2 }
    (by decide) (by decide) (by decide)

/-- C2, corrected: in every generated machine, the transition
probabilities recorded for any event sum to at most 1, EXCEPT that the
RegulaTor relay SEND states' NonPaddingSent entry carries the unclamped
probability `2 / (threshold * rate)`, so the bound holds for them only
under the hypothesis `2 / (threshold * rate_i) <= 1` (equivalently
`threshold * rate_i >= 2`); it does not hold for every positive
threshold and rate (see `claim_C2_counterexample`). -/
theorem claim_C2 :
    (∀ ctx : Front.Ctx,
      machineProbSumsLe1 (Front.generate_machine ctx)) ∧
    (∀ ctx : Pipelined.Ctx, 1 ≤ ctx.num_states → 1 ≤ ctx.num_pipelines →
      machineProbSumsLe1 (Pipelined.generate_machine ctx)) ∧
    (∀ upload_ratio : ℚ,
      machineProbSumsLe1 (Regulator.generate_client_machine
        upload_ratio)) ∧
    (∀ (ctx : Regulator.RelayCtx) (num_send_states : ℕ),
      (∀ i < num_send_states,
        2 / (ctx.threshold * Regulator.sendRate ctx i) ≤ 1) →
      machineProbSumsLe1 (Regulator.relayMachineWith ctx
        num_send_states)) ∧
    (∀ raw : List ℕ,
      machineProbSumsLe1 (Surakav.parse_file raw).1 ∧
        machineProbSumsLe1 (Surakav.parse_file raw).2) := by
  refine ⟨?_, ?_, ?_, ?_, ?_⟩
  · -- FRONT
    intro ctx s hs
    rw [Front.generate_machine_states_eq] at hs
    rcases List.mem_cons.mp hs with rfl | hs
    · exact Front.sums_le_start _
    rcases List.mem_append.mp hs with hs | hs
    · rcases List.mem_map.mp hs with ⟨m, _, rfl⟩
      exact Front.sums_le_loopState ctx m
    · simp only [List.mem_singleton] at hs
      subst hs
      exact Front.sums_le_lastState ctx _
  · -- Pipelined FRONT
    intro ctx hn hp s hs
    rw [Pipelined.pipe_machine_states_eq] at hs
    rcases List.mem_cons.mp hs with rfl | hs
    · exact Pipelined.sums_le_start_pipe ctx.num_states ctx.num_pipelines hn hp
    rcases List.mem_flatten.mp hs with ⟨blk, hblk, hsblk⟩
    rcases List.mem_map.mp hblk with ⟨q, _, rfl⟩
    rw [Pipelined.pipeBlock] at hsblk
    have h0 : (0 : ℚ) = Pipelined.cursorF ctx 0 := rfl
    rw [h0, Pipelined.pipeStates_eq] at hsblk
    rcases List.mem_append.mp hsblk with hsb | hsb
    · rcases List.mem_map.mp hsb with ⟨a, _, rfl⟩
      exact Pipelined.sums_le_loopState_pipe ctx _ _ _ _
    · simp only [List.mem_singleton] at hsb
      subst hsb
      exact Pipelined.sums_le_lastState_pipe ctx _ _ _ _
  · -- RegulaTor client
    intro upload_ratio s hs
    simp only [Regulator.generate_client_machine,
      Regulator.clientCountStates, List.mem_append, List.mem_map,
      List.mem_range, List.mem_singleton] at hs
    rcases hs with ⟨j, hj, rfl⟩ | rfl
    · have hcnt : 1 ≤ f64AsUsize upload_ratio := by omega
      apply Regulator.sums_le_client_count _ _ _ _ (by omega)
      by_cases hlast : j + 1 = f64AsUsize upload_ratio + 1 - 1
      · rw [if_pos hlast]
        exact Regulator.prob_last_trans_le_one upload_ratio hcnt
      · rw [if_neg hlast]
    · exact Regulator.sums_le_client_send _
  · -- RegulaTor relay
    intro ctx n hr s hs
    have hst : (Regulator.relayMachineWith ctx n).states =
        Regulator.relayStates ctx n := rfl
    rw [hst, Regulator.relayStates_eq] at hs
    rcases List.mem_append.mp hs with hs | hs
    · simp only [List.mem_cons, List.mem_singleton, List.not_mem_nil,
        or_false] at hs
      rcases hs with rfl | rfl | rfl | rfl | rfl | rfl | rfl | rfl | rfl |
        rfl | rfl
      · exact Regulator.sums_le_relay_start _
      · exact Regulator.sums_le_relay_block _
      all_goals exact Regulator.sums_le_boot _ _ _ _
    · rcases List.mem_map.mp hs with ⟨j, hj, rfl⟩
      rw [List.mem_range] at hj
      exact Regulator.sums_le_mkSendState ctx _ j (hr j hj)
  · -- Surakav
    intro raw
    have hbody := Surakav.burstLoop_sums ((Surakav.read_lines raw 0).2 + 2)
      (Surakav.read_lines raw 0).1 2 3 false
    constructor
    · intro s hs
      simp only [Surakav.parse_file, List.mem_cons] at hs
      rcases hs with rfl | rfl | hs
      · exact Surakav.sums_le_start_sur _ _
      · exact Surakav.sums_le_block _ _
      · exact hbody.1 s hs
    · intro s hs
      simp only [Surakav.parse_file, List.mem_cons] at hs
      rcases hs with rfl | rfl | hs
      · exact Surakav.sums_le_start_sur _ _
      · exact Surakav.sums_le_block _ _
      · exact hbody.2 s hs

/-- C2 counterexample: the claim as stated fails for positive
`threshold` and `rate` with `threshold * rate < 2`: the relay machine
built with `threshold = 1` and a curve rate of `3/2` contains the SEND
state at index 12 whose NonPaddingSent probabilities sum to
`2 / (1 * (3/2)) = 4/3 > 1`. -/
theorem claim_C2_counterexample :
    ¬ machineProbSumsLe1
      (Regulator.relayMachineWith
        { packets_per_state := 100, threshold := 1,
          widthFn := fun _ => some 1, rateAt := fun _ => 3 / 2 } 2) := by
  intro h
  have hmem : Regulator.mkSendState
      { packets_per_state := 100, threshold := 1,
        widthFn := fun _ => some 1, rateAt := fun _ => 3 / 2 } (2 + 11) 1 ∈
      (Regulator.relayMachineWith
        { packets_per_state := 100, threshold := 1,
          widthFn := fun _ => some 1, rateAt := fun _ => 3 / 2 } 2).states := by
    have hst : (Regulator.relayMachineWith
        { packets_per_state := 100, threshold := 1,
          widthFn := fun _ => some 1, rateAt := fun _ => 3 / 2 } 2).states =
        Regulator.relayStates
          { packets_per_state := 100, threshold := 1,
            widthFn := fun _ => some 1, rateAt := fun _ => 3 / 2 } 2 := rfl
    rw [hst, Regulator.relayStates_eq]
    apply List.mem_append_right
    exact List.mem_map.mpr ⟨1, by simp, rfl⟩
  have hsum := h _ hmem Event.NonPaddingSent
  have hends : ¬ Regulator.sendEnds
      { packets_per_state := 100, threshold := 1,
        widthFn := fun _ => some 1, rateAt := fun _ => 3 / 2 } 1 := by
    simp [Regulator.sendEnds]
    norm_num
  have hrate : Regulator.sendRate
      { packets_per_state := 100, threshold := 1,
        widthFn := fun _ => some 1, rateAt := fun _ => 3 / 2 } 1 =
      3 / 2 := by
    simp [Regulator.sendRate, hends]
  rw [Regulator.mkSendState_eq, hrate] at hsum
  simp [eventProbSum, lookupEvent, Regulator.generate_relay_send_state,
    State.new] at hsum
  norm_num at hsum

/-- C2 witness: the amended bound instantiated at concrete machines
(Pipelined FRONT with 2 states and 3 pipelines; the relay machine with
`threshold = 4` and curve rate `3/2`, where `threshold * rate >= 2`). -/
theorem claim_C2_witness :
    machineProbSumsLe1
        (Pipelined.generate_machine
          { window := 1, budget := 6, num_states := 2, num_pipelines := 3,
            max_t := 4, widthFn := fun _ => 1, sqrt_pi := 2 }) ∧
      machineProbSumsLe1
        (Regulator.relayMachineWith
          { packets_per_state := 100, threshold := 4,
            widthFn := fun _ => some 1, rateAt := fun _ => 3 / 2 } 2) :=
  ⟨claim_C2.2.1 _ (by decide) (by decide),
   claim_C2.2.2.2.1 _ 2 (by
    intro i _
    have hends : ¬ Regulator.sendEnds
        { packets_per_state := 100, threshold := 4,
          widthFn := fun _ => some 1, rateAt := fun _ => 3 / 2 } i := by
      simp [Regulator.sendEnds]
      norm_num
    have hrate : Regulator.sendRate
        { packets_per_state := 100, threshold := 4,
          widthFn := fun _ => some 1, rateAt := fun _ => 3 / 2 } i =
        3 / 2 := by
      simp [Regulator.sendRate, hends]
    rw [hrate]
    norm_num)⟩

/-- C3, corrected: for `upload_ratio = 2.5` the RegulaTor client machine
has 3 states in total -- exactly 2 COUNTER states (the blocking counter
states) followed by the SEND state, not 3 COUNTER states -- and the
last COUNTER state's forward-transition probability on
NonPaddingRecv/PaddingRecv (to the following state) is exactly 0.5. -/
theorem claim_C3 :
    (Regulator.generate_client_machine (5 / 2)).states =
      [Regulator.generate_client_count_state 0 1 3 1,
       Regulator.generate_client_count_state 1 2 3 (1 / 2),
       Regulator.generate_client_send_state 3] ∧
    (Regulator.generate_client_machine (5 / 2)).states.countP
        (fun s => s.action_is_block) = 2 ∧
    lookupEvent (Regulator.generate_client_count_state 1 2 3 (1 / 2))
        Event.PaddingRecv = some [(2, 1 / 2), (1, 1 / 2)] ∧
    lookupEvent (Regulator.generate_client_count_state 1 2 3 (1 / 2))
        Event.NonPaddingRecv = some [(2, 1 / 2), (1, 1 / 2)] := by
  have hflr : (⌊(5 / 2 : ℚ)⌋ : ℤ) = 2 := by
    norm_num [Int.floor_eq_iff]
  have husize : f64AsUsize (5 / 2) = 2 := by
    simp [f64AsUsize, hflr]
  have hfract : f64Fract (5 / 2) = 1 / 2 := by
    norm_num [f64Fract, hflr]
  have hstates : (Regulator.generate_client_machine (5 / 2)).states =
      [Regulator.generate_client_count_state 0 1 3 1,
       Regulator.generate_client_count_state 1 2 3 (1 / 2),
       Regulator.generate_client_send_state 3] := by
    simp only [Regulator.generate_client_machine, husize, hfract,
      Regulator.clientCountStates]
    norm_num [List.range_succ]
  have hlt : (1 / 2 : ℚ) < 1 := by norm_num
  refine ⟨hstates, ?_, ?_, ?_⟩
  · rw [hstates]
    rfl
  · simp [lookupEvent, Regulator.generate_client_count_state,
      State.new, hlt]
    norm_num
  · simp [lookupEvent, Regulator.generate_client_count_state,
      State.new, hlt]
    norm_num

/-- C3 counterexample: the claim as stated is false -- the machine for
`upload_ratio = 2.5` contains exactly 2 COUNTER states (the states with
the blocking flag, i.e. all states except the final SEND state), not 3;
its total state count is 3. -/
theorem claim_C3_counterexample :
    (Regulator.generate_client_machine (5 / 2)).states.countP
        (fun s => s.action_is_block) = 2 ∧
      ¬ ((Regulator.generate_client_machine (5 / 2)).states.countP
        (fun s => s.action_is_block) = 3) := by
  have hflr : (⌊(5 / 2 : ℚ)⌋ : ℤ) = 2 := by
    norm_num [Int.floor_eq_iff]
  have husize : f64AsUsize (5 / 2) = 2 := by
    simp [f64AsUsize, hflr]
  have hcount : (Regulator.generate_client_machine (5 / 2)).states.countP
      (fun s => s.action_is_block) = 2 := by
    simp only [Regulator.generate_client_machine, husize,
      Regulator.clientCountStates]
    norm_num [List.range_succ, List.countP_cons,
      Regulator.generate_client_count_state,
      Regulator.generate_client_send_state, State.new]
  exact ⟨hcount, by omega⟩

/-- C4, corrected: in the RegulaTor relay machine the `i`-th SEND state
occupies index `i + 11`; for `i >= 1` (state index strictly greater
than 11) its NonPaddingSent row is exactly
`[(11, 2 / (threshold * rate_i))]`, a reset to SEND_0 at index 11,
where `rate_i` is the curve-fitted midpoint rate of the state's
interval except on the terminal condition (infinite width or rate below
1), where it is clamped to 1; the first SEND state (`i = 0`, index 11,
which also lies past the nine bootstrap states) has no NonPaddingSent
transition at all, contrary to the claim as stated (see
`claim_C4_counterexample`). -/
theorem claim_C4 (ctx : Regulator.RelayCtx) (num_send_states i : ℕ)
    (hi : i < num_send_states) :
    (Regulator.relayMachineWith ctx num_send_states).states.get?
        (i + 11) =
      some (Regulator.mkSendState ctx (num_send_states + 11) i) ∧
    (1 ≤ i →
      lookupEvent (Regulator.mkSendState ctx (num_send_states + 11) i)
          Event.NonPaddingSent =
        some [(11, 2 / (ctx.threshold * Regulator.sendRate ctx i))]) ∧
    lookupEvent (Regulator.mkSendState ctx (num_send_states + 11) 0)
        Event.NonPaddingSent = none ∧
    Regulator.sendRate ctx i =
      (if Regulator.sendEnds ctx i then 1
       else ctx.rateAt (Regulator.sendMid ctx i)) := by
  refine ⟨?_, ?_, ?_, rfl⟩
  · have hst : (Regulator.relayMachineWith ctx num_send_states).states =
        Regulator.relayStates ctx num_send_states := rfl
    rw [hst, Regulator.relayStates_eq,
      List.get?_append_right (by simp), List.get?_map]
    simp [List.getElem?_range, hi]
  · intro h1
    rw [Regulator.mkSendState_eq]
    have hc : 11 < i + 11 := by omega
    simp [lookupEvent, Regulator.generate_relay_send_state, State.new, hc]
  · rw [Regulator.mkSendState_eq]
    have hc : ¬ (11 < 0 + 11) := by omega
    simp [lookupEvent, Regulator.generate_relay_send_state, State.new, hc]

/-- C4 counterexample: SEND_0 sits at index 11, past the bootstrap
states at indices 2..10, yet has no NonPaddingSent transition: in the
concrete relay machine below, the state at index 11 is a SEND state
(it is `mkSendState _ _ 0`) whose NonPaddingSent lookup is `none`,
while the claim as stated requires a reset entry with probability
`2 / (threshold * rate)` for it. -/
theorem claim_C4_counterexample :
    ((Regulator.relayMachineWith
        { packets_per_state := 100, threshold := 4,
          widthFn := fun _ => some 1, rateAt := fun _ => 3 / 2 } 2).states.get?
        11).map (fun s => lookupEvent s Event.NonPaddingSent) =
      some none := by
  have h := claim_C4
    { packets_per_state := 100, threshold := 4,
      widthFn := fun _ => some 1, rateAt := fun _ => 3 / 2 } 2 0
    (by omega)
  rw [show (11 : ℕ) = 0 + 11 from rfl, h.1]
  simp only [Option.map_some']
  rw [h.2.2.1]

/-- C4 witness: the amended statement instantiated at a concrete relay
context with `num_send_states = 2`, `i = 1`. -/
theorem claim_C4_witness :
    (Regulator.relayMachineWith
        { packets_per_state := 100, threshold := 4,
          widthFn := fun _ => some 1, rateAt := fun _ => 3 / 2 } 2).states.get?
        (1 + 11) =
      some (Regulator.mkSendState
        { packets_per_state := 100, threshold := 4,
          widthFn := fun _ => some 1, rateAt := fun _ => 3 / 2 } (2 + 11) 1) ∧
    (1 ≤ 1 →
      lookupEvent (Regulator.mkSendState
          { packets_per_state := 100, threshold := 4,
            widthFn := fun _ => some 1, rateAt := fun _ => 3 / 2 } (2 + 11) 1)
          Event.NonPaddingSent =
        some [(11, 2 / (Regulator.RelayCtx.threshold
          { packets_per_state := 100, threshold := 4,
            widthFn := fun _ => some 1, rateAt := fun _ => 3 / 2 } *
          Regulator.sendRate
            { packets_per_state := 100, threshold := 4,
              widthFn := fun _ => some 1, rateAt := fun _ => 3 / 2 } 1))]) ∧
    lookupEvent (Regulator.mkSendState
        { packets_per_state := 100, threshold := 4,
          widthFn := fun _ => some 1, rateAt := fun _ => 3 / 2 } (2 + 11) 0)
        Event.NonPaddingSent = none ∧
    Regulator.sendRate
        { packets_per_state := 100, threshold := 4,
          widthFn := fun _ => some 1, rateAt := fun _ => 3 / 2 } 1 =
      (if Regulator.sendEnds
          { packets_per_state := 100, threshold := 4,
            widthFn := fun _ => some 1, rateAt := fun _ => 3 / 2 } 1 then 1
       else Regulator.RelayCtx.rateAt
          { packets_per_state := 100, threshold := 4,
            widthFn := fun _ => some 1, rateAt := fun _ => 3 / 2 }
          (Regulator.sendMid
            { packets_per_state := 100, threshold := 4,
              widthFn := fun _ => some 1, rateAt := fun _ => 3 / 2 } 1)) :=
  claim_C4
    { packets_per_state := 100, threshold := 4,
      widthFn := fun _ => some 1, rateAt := fun _ => 3 / 2 } 2 1 (by omega)

/-- C8: for the trace lines `3, 2, 0, 4, 0` the Surakav generator
produces exactly 3 burst-state pairs (machines of 5 states: START,
BLOCK and one state per non-zero line; each pair is one send state and
one receive state built from the same cell count, hence sharing the
same limit); exactly one direction switch influences the output -- the
toggle at the first `0` line (index 2), the trailing `0` affecting no
emitted state -- and exactly two of the automatic per-burst role
alternations influence the output, yielding the sender sequence
client, relay, relay. -/
theorem claim_C8 :
    (Surakav.parse_file [3, 2, 0, 4, 0]).1.states.length = 5 ∧
    (Surakav.parse_file [3, 2, 0, 4, 0]).2.states.length = 5 ∧
    Surakav.numBurstPairs [3, 2, 0, 4, 0] = 3 ∧
    (Surakav.parse_file [3, 2, 0, 4, 0]).1.states.get? 2 =
      some (Surakav.generate_burst_states ((3 : ℕ) : ℚ) 2 3 5).2 ∧
    (Surakav.parse_file [3, 2, 0, 4, 0]).2.states.get? 2 =
      some (Surakav.generate_burst_states ((3 : ℕ) : ℚ) 2 3 5).1 ∧
    (Surakav.parse_file [3, 2, 0, 4, 0]).1.states.get? 3 =
      some (Surakav.generate_burst_states ((2 : ℕ) : ℚ) 3 4 5).1 ∧
    (Surakav.parse_file [3, 2, 0, 4, 0]).2.states.get? 3 =
      some (Surakav.generate_burst_states ((2 : ℕ) : ℚ) 3 4 5).2 ∧
    (Surakav.parse_file [3, 2, 0, 4, 0]).1.states.get? 4 =
      some (Surakav.generate_burst_states ((4 : ℕ) : ℚ) 4 6 5).1 ∧
    (Surakav.parse_file [3, 2, 0, 4, 0]).2.states.get? 4 =
      some (Surakav.generate_burst_states ((4 : ℕ) : ℚ) 4 6 5).2 ∧
    (Surakav.generate_burst_states ((3 : ℕ) : ℚ) 2 3 5).1.limit =
      (Surakav.generate_burst_states ((3 : ℕ) : ℚ) 2 3 5).2.limit ∧
    Surakav.effectiveZeroSwitches [3, 2, 0, 4, 0] = 1 ∧
    ([3, 2, 0, 4, 0].get? 2 = some 0 ∧
      (([3, 2, 0, 4, 0].drop 3).any (fun v => decide (v ≠ 0))) = true) ∧
    ([3, 2, 0, 4, 0].get? 4 = some 0 ∧
      (([3, 2, 0, 4, 0].drop 5).any (fun v => decide (v ≠ 0))) = false) ∧
    Surakav.effectiveBurstAlternations [3, 2, 0, 4, 0] = 2 ∧
    Surakav.senderSeq [3, 2, 0, 4, 0] false = [false, true, true] := by
  decide

/-- C9: synthesis is deterministic.  Each generator is a pure function
of its arguments (and, for Surakav, of the trace-file line values), so
two invocations on identical inputs yield identical machine values and
hence byte-identical serialized output.  Modelled from the spec: the
serializer is external to this repository and is specified as a pure
function of the finished machine value, so it is quantified here as an
arbitrary function `serialize : Machine -> List ℕ`; no step of the
embedded synthesis consults time or randomness (the embedding into
total functions is exact). -/
theorem claim_C9 :
    ∀ serialize : Machine → List ℕ,
      (∀ a b : Front.Ctx, a = b →
        serialize (Front.generate_machine a) =
          serialize (Front.generate_machine b)) ∧
      (∀ a b : Pipelined.Ctx, a = b →
        serialize (Pipelined.generate_machine a) =
          serialize (Pipelined.generate_machine b)) ∧
      (∀ r s : ℚ, r = s →
        serialize (Regulator.generate_client_machine r) =
          serialize (Regulator.generate_client_machine s)) ∧
      (∀ (a b : Regulator.RelayCtx) (fuel₁ fuel₂ : ℕ), a = b →
        fuel₁ = fuel₂ →
        (Regulator.generate_relay_machine a fuel₁).map serialize =
          (Regulator.generate_relay_machine b fuel₂).map serialize) ∧
      (∀ raw₁ raw₂ : List ℕ, raw₁ = raw₂ →
        serialize (Surakav.parse_file raw₁).1 =
            serialize (Surakav.parse_file raw₂).1 ∧
          serialize (Surakav.parse_file raw₁).2 =
            serialize (Surakav.parse_file raw₂).2) := by
  intro serialize
  refine ⟨?_, ?_, ?_, ?_, ?_⟩
  · intro a b h
    rw [h]
  · intro a b h
    rw [h]
  · intro r s h
    rw [h]
  · intro a b f₁ f₂ h hf
    rw [h, hf]
  · intro raw₁ raw₂ h
    rw [h]
    exact ⟨rfl, rfl⟩

/-- C9 witness: determinism instantiated at a trivial serializer and
concrete equal inputs. -/
theorem claim_C9_witness :
    (fun _ : Machine => ([] : List ℕ))
        (Regulator.generate_client_machine (5 / 2)) =
      (fun _ : Machine => ([] : List ℕ))
        (Regulator.generate_client_machine (5 / 2)) ∧
    (fun _ : Machine => ([] : List ℕ)) (Surakav.parse_file [3, 2, 0]).1 =
      (fun _ : Machine => ([] : List ℕ)) (Surakav.parse_file [3, 2, 0]).1 :=
  ⟨(claim_C9 (fun _ => [])).2.2.1 (5 / 2) (5 / 2) rfl,
   ((claim_C9 (fun _ => [])).2.2.2.2 [3, 2, 0] [3, 2, 0] rfl).1⟩

/-- C6, corrected (termination part): for every packet target
`count > 0`, initial rate `R > 0` and decay `D` strictly between 0 and
1, the RegulaTor relay state-counting loop reaches its stopping
condition after finitely many iterations (the interval search reports
an unbounded width, or the midpoint rate decays below 1), so the
SEND-state count is finite.  The claim's strict-monotonicity part
("strictly larger for `D` closer to 1") is false: see
`claim_C6_counterexample`. -/
theorem claim_C6 (count R D : ℝ) (hc : 0 < count) (hR : 0 < R)
    (hD0 : 0 < D) (hD1 : D < 1) :
    ∃ n, Regulator.countStops count R D n := by
  by_cases hnone : ∃ n, Regulator.calcIntervalWidthSol count R D
      (Regulator.sendCursor count R D n) = none
  · obtain ⟨n, hn⟩ := hnone
    exact ⟨n, Or.inl hn⟩
  · push_neg at hnone
    have hsome : ∀ n, ∃ w, Regulator.calcIntervalWidthSol count R D
        (Regulator.sendCursor count R D n) = some w := by
      intro n
      cases hw : Regulator.calcIntervalWidthSol count R D
          (Regulator.sendCursor count R D n) with
      | none => exact absurd hw (hnone n)
      | some w => exact ⟨w, rfl⟩
    have hcr : 0 < count / R := by positivity
    have hcur : ∀ n, 0 ≤ Regulator.sendCursor count R D n ∧
        (n : ℝ) * (count / R) ≤ Regulator.sendCursor count R D n := by
      intro n
      induction n with
      | zero => simp [Regulator.sendCursor]
      | succ n ih =>
        obtain ⟨w, hw⟩ := hsome n
        have hlb := Regulator.calcIntervalWidthSol_lb hc hR hD0
          (le_of_lt hD1) ih.1 hw
        have hstep : Regulator.sendCursor count R D (n + 1) =
            Regulator.sendCursor count R D n + w := by
          simp [Regulator.sendCursor, hw]
        constructor
        · rw [hstep]
          linarith
        · rw [hstep]
          push_cast
          have := ih.2
          nlinarith
    set q := D ^ (count / R) with hqdef
    have hq1 : q < 1 := Real.rpow_lt_one (le_of_lt hD0) hD1 hcr
    obtain ⟨n, hqn⟩ := exists_pow_lt_of_lt_one
      (show (0 : ℝ) < 1 / R by positivity) hq1
    refine ⟨n, Or.inr ?_⟩
    obtain ⟨w, hw⟩ := hsome n
    obtain ⟨hwpos, _⟩ := Regulator.calcIntervalWidthSol_spec hw
    have hmid : (n : ℝ) * (count / R) ≤ Regulator.sendCursor count R D n +
        (Regulator.calcIntervalWidthSol count R D
          (Regulator.sendCursor count R D n)).getD 0 / 2 := by
      rw [hw]
      simp only [Option.getD_some]
      have := (hcur n).2
      linarith
    have hrate : Regulator.calculate_rate
        (Regulator.sendCursor count R D n +
          (Regulator.calcIntervalWidthSol count R D
            (Regulator.sendCursor count R D n)).getD 0 / 2) R D ≤
        R * q ^ n := by
      rw [Regulator.calculate_rate]
      have h1 : D ^ (Regulator.sendCursor count R D n +
          (Regulator.calcIntervalWidthSol count R D
            (Regulator.sendCursor count R D n)).getD 0 / 2) ≤
          D ^ ((n : ℝ) * (count / R)) :=
        Real.rpow_le_rpow_of_exponent_ge hD0 (le_of_lt hD1) hmid
      have h2 : D ^ ((n : ℝ) * (count / R)) = q ^ n := by
        rw [hqdef, mul_comm, Real.rpow_mul (le_of_lt hD0),
          Real.rpow_natCast]
      rw [h2] at h1
      exact mul_le_mul_of_nonneg_left h1 (le_of_lt hR)
    have hfin : R * q ^ n < 1 := by
      have := mul_lt_mul_of_pos_left hqn hR
      rw [mul_one_div] at this
      calc R * q ^ n < R * (1 / R) := mul_lt_mul_of_pos_left hqn hR
        _ = 1 := by field_simp
    linarith

/-- C6 counterexample: the SEND-state count is not strictly larger for
decay closer to 1.  With initial rate `R = 1/2 < 1` the very first
midpoint rate is already below 1, so the counting loop stops on its
first iteration for every decay value: the count is 1 both for
`D = 1/4` and for `D = 1/2`, although `1/2` is closer to 1. -/
theorem claim_C6_counterexample :
    Regulator.num_send_states 100 (1 / 2) (1 / 4) = 1 ∧
      Regulator.num_send_states 100 (1 / 2) (1 / 2) = 1 := by
  have key : ∀ D : ℝ, 0 < D → D ≤ 1 →
      Regulator.countStops 100 (1 / 2) D 0 := by
    intro D hD0 hD1
    cases hw : Regulator.calcIntervalWidthSol 100 (1 / 2) D
        (Regulator.sendCursor 100 (1 / 2) D 0) with
    | none => exact Or.inl hw
    | some w =>
      refine Or.inr ?_
      obtain ⟨hwpos, _⟩ := Regulator.calcIntervalWidthSol_spec hw
      have hcur0 : Regulator.sendCursor 100 (1 / 2) D 0 = 0 := rfl
      rw [Regulator.calculate_rate, hw]
      simp only [Option.getD_some, hcur0]
      have hm : (0 : ℝ) ≤ 0 + w / 2 := by linarith
      have hpow : D ^ ((0 : ℝ) + w / 2) ≤ 1 :=
        Real.rpow_le_one (le_of_lt hD0) hD1 hm
      nlinarith
  have count_one : ∀ D : ℝ, 0 < D → D ≤ 1 →
      Regulator.num_send_states 100 (1 / 2) D = 1 := by
    intro D hD0 hD1
    classical
    have hex : ∃ n, Regulator.countStops 100 (1 / 2) D n :=
      ⟨0, key D hD0 hD1⟩
    rw [Regulator.num_send_states, dif_pos hex]
    have h0 : Nat.find hex = 0 := (Nat.find_eq_zero hex).mpr
      (key D hD0 hD1)
    omega
  exact ⟨count_one (1 / 4) (by norm_num) (by norm_num),
    count_one (1 / 2) (by norm_num) (by norm_num)⟩

/-- C6 witness: termination instantiated at `count = 1`, `R = 1`,
`D = 1/2`. -/
theorem claim_C6_witness :
    ∃ n, Regulator.countStops 1 1 (1 / 2) n :=
  claim_C6 1 1 (1 / 2) one_pos one_pos (by norm_num) (by norm_num)

/-- C7, corrected (accuracy part): whenever the bounded bisection search
over the Rayleigh CDF terminates with a width `w`, the captured area
`rayleigh_cdf (a + w) - rayleigh_cdf a` differs from the target `area`
by at most `f64::EPSILON = 2^-52`, hence by at most `1e-9`.  The
claim's universal termination part is false: for targets exceeding the
cumulative mass to the right of `a` the loop never terminates (see
`claim_C7_counterexample`). -/
theorem claim_C7 (fuel : ℕ) (a max_t area scale w : ℝ)
    (h : Front.calc_interval_width a max_t area scale fuel = some w) :
    |Front.rayleigh_cdf (a + w) scale - Front.rayleigh_cdf a scale -
      area| ≤ 1e-9 := by
  have hacc := Front.cwLoop_accuracy a area scale fuel max_t
    ((max_t - a) / 2) w h
  have heps : EPSILON ≤ 1e-9 := by
    rw [EPSILON, show ((-52 : ℤ)) = -((52 : ℕ) : ℤ) by norm_num,
      zpow_neg, zpow_natCast]
    rw [inv_le_comm₀ (by positivity) (by norm_num)]
    norm_num
  linarith

/-- C7 counterexample: the claim fails as a termination statement.  At
`a = 3`, `scale = 1` the hypotheses `0 < area < 1` and `0 < a < max_t`
hold for `area = 1/2`, yet the requested area exceeds the whole
cumulative mass right of `a` (which is `e^(-9/2) < 1/4`), the area
deficit never drops below `1/4`, and the search returns no width for
any number of iterations. -/
theorem claim_C7_counterexample :
    ((0 : ℝ) < 1 / 2 ∧ (1 / 2 : ℝ) < 1) ∧
    ((0 : ℝ) < 3 ∧ (3 : ℝ) < Front.rayleigh_max_t 1) ∧
    (0 : ℝ) < 1 ∧
    ∀ fuel : ℕ,
      Front.calc_interval_width 3 (Front.rayleigh_max_t 1) (1 / 2) 1
        fuel = none := by
  refine ⟨⟨by norm_num, by norm_num⟩,
    ⟨by norm_num, Front.three_lt_rayleigh_max_t_one⟩, by norm_num, ?_⟩
  intro fuel
  rw [Front.calc_interval_width]
  exact Front.cwLoop_diverges fuel _ _

/-- C7 witness: the amended accuracy statement applied at a concrete
terminating run (at `a = 0`, `scale = 1` and the quantile constant as
target area, the very first candidate matches and the search stops). -/
theorem claim_C7_witness :
    |Front.rayleigh_cdf (0 + (Front.rayleigh_max_t 1 - 0)) 1 -
      Front.rayleigh_cdf 0 1 - 0.9996645373720975| ≤ 1e-9 :=
  claim_C7 1 0 (Front.rayleigh_max_t 1) 0.9996645373720975 1
    (Front.rayleigh_max_t 1 - 0) Front.calc_interval_width_at_quantile

/-- C10: in the Pipelined FRONT generator every padding state of the
`k`-th pipeline (0-based construction order) is built with padding count
`(k+1) * budget / (num_states * num_pipelines)`, which appears both as
the limit distribution's upper bound (`padding_count` argument of
`generate_padding_state`) and as the denominator of the timeout mean;
pipelines built later get strictly larger padding budgets. -/
theorem claim_C10 (ctx : Pipelined.Ctx) (hn : 1 ≤ ctx.num_states)
    (hp : 1 ≤ ctx.num_pipelines) (hb : 1 ≤ ctx.budget) :
    let cc : ℕ → ℚ := fun k => ((k : ℚ) + 1) * (ctx.budget : ℚ) /
      ((ctx.num_states : ℚ) * (ctx.num_pipelines : ℚ))
    ((Pipelined.generate_machine ctx).states =
      Pipelined.generate_start_state ctx.num_states ctx.num_pipelines
          (ctx.num_pipelines * ctx.num_states + 1) ::
        ((List.range ctx.num_pipelines).map (fun k =>
          (List.range (ctx.num_states - 1)).map (fun a =>
            Pipelined.generate_padding_state
              (1 + k * ctx.num_states + a)
              (1 + k * ctx.num_states + a + 1)
              (ctx.num_pipelines * ctx.num_states + 1)
              (cc k)
              (ctx.widthFn (Pipelined.cursorF ctx a) / cc k)
              (ctx.window ^ 2 / (cc k *
                (Pipelined.cursorF ctx a +
                  ctx.widthFn (Pipelined.cursorF ctx a) / 2) *
                ctx.sqrt_pi)))
          ++ [Pipelined.generate_padding_state
                (1 + k * ctx.num_states + (ctx.num_states - 1))
                (ctx.num_pipelines * ctx.num_states + 1 + 1)
                (ctx.num_pipelines * ctx.num_states + 1)
                (cc k)
                ((ctx.max_t - Pipelined.cursorF ctx (ctx.num_states - 1)) /
                  cc k)
                (ctx.window ^ 2 / (cc k *
                  (Pipelined.cursorF ctx (ctx.num_states - 1) +
                    (ctx.max_t -
                      Pipelined.cursorF ctx (ctx.num_states - 1)) / 2) *
                  ctx.sqrt_pi))])).flatten) ∧
    (∀ k : ℕ, cc k < cc (k + 1)) := by
  intro cc
  have hcc : ∀ k : ℕ, ((k : ℚ) + 1) *
      (1 / (ctx.num_states : ℚ) * (ctx.budget : ℚ) /
        (ctx.num_pipelines : ℚ)) = cc k := by
    intro k
    show _ = ((k : ℚ) + 1) * (ctx.budget : ℚ) /
      ((ctx.num_states : ℚ) * (ctx.num_pipelines : ℚ))
    simp only [div_eq_mul_inv, mul_inv, one_mul]
    ring
  constructor
  · rw [Pipelined.pipe_machine_states_eq]
    congr 1
    congr 1
    apply List.map_congr_left
    intro k hk
    rw [Pipelined.pipeBlock]
    have h0 : (0 : ℚ) = Pipelined.cursorF ctx 0 := rfl
    rw [h0, Pipelined.pipeStates_eq, hcc k]
    simp only [Pipelined.loopState, Pipelined.lastState, Nat.zero_add]
  · intro k
    have hn0 : (0 : ℚ) < (ctx.num_states : ℚ) := by
      exact_mod_cast Nat.lt_of_lt_of_le Nat.zero_lt_one hn
    have hp0 : (0 : ℚ) < (ctx.num_pipelines : ℚ) := by
      exact_mod_cast Nat.lt_of_lt_of_le Nat.zero_lt_one hp
    have hb0 : (0 : ℚ) < (ctx.budget : ℚ) := by
      exact_mod_cast Nat.lt_of_lt_of_le Nat.zero_lt_one hb
    show ((k : ℚ) + 1) * (ctx.budget : ℚ) /
        ((ctx.num_states : ℚ) * (ctx.num_pipelines : ℚ)) <
      (((k + 1 : ℕ) : ℚ) + 1) * (ctx.budget : ℚ) /
        ((ctx.num_states : ℚ) * (ctx.num_pipelines : ℚ))
    rw [div_lt_div_iff_of_pos_right (by positivity)]
    push_cast
    have := mul_lt_mul_of_pos_right
      (show (k : ℚ) + 1 < (k : ℚ) + 2 by linarith) hb0
    linarith

/-- C10 witness: the statement instantiated at `window = 1`,
`budget = 6`, `num_states = 2`, `num_pipelines = 3`. -/
theorem claim_C10_witness :
    let ctx : Pipelined.Ctx :=
      { window := 1, budget := 6, num_states := 2, num_pipelines := 3,
        max_t := 4, widthFn := fun _ => 1, sqrt_pi := 2 }
    let cc : ℕ → ℚ := fun k => ((k : ℚ) + 1) * (ctx.budget : ℚ) /
      ((ctx.num_states : ℚ) * (ctx.num_pipelines : ℚ))
    ((Pipelined.generate_machine ctx).states =
      Pipelined.generate_start_state ctx.num_states ctx.num_pipelines
          (ctx.num_pipelines * ctx.num_states + 1) ::
        ((List.range ctx.num_pipelines).map (fun k =>
          (List.range (ctx.num_states - 1)).map (fun a =>
            Pipelined.generate_padding_state
              (1 + k * ctx.num_states + a)
              (1 + k * ctx.num_states + a + 1)
              (ctx.num_pipelines * ctx.num_states + 1)
              (cc k)
              (ctx.widthFn (Pipelined.cursorF ctx a) / cc k)
              (ctx.window ^ 2 / (cc k *
                (Pipelined.cursorF ctx a +
                  ctx.widthFn (Pipelined.cursorF ctx a) / 2) *
                ctx.sqrt_pi)))
          ++ [Pipelined.generate_padding_state
                (1 + k * ctx.num_states + (ctx.num_states - 1))
                (ctx.num_pipelines * ctx.num_states + 1 + 1)
                (ctx.num_pipelines * ctx.num_states + 1)
                (cc k)
                ((ctx.max_t - Pipelined.cursorF ctx (ctx.num_states - 1)) /
                  cc k)
                (ctx.window ^ 2 / (cc k *
                  (Pipelined.cursorF ctx (ctx.num_states - 1) +
                    (ctx.max_t -
                      Pipelined.cursorF ctx (ctx.num_states - 1)) / 2) *
                  ctx.sqrt_pi))])).flatten) ∧
    (∀ k : ℕ, cc k < cc (k + 1)) :=
  claim_C10
    { window := 1, budget := 6, num_states := 2, num_pipelines := 3,
      max_t := 4, widthFn := fun _ => 1, sqrt_pi := 2 }
    (by decide) (by decide) (by decide)

end Claims

end Maybenot
